import Mathlib

/-!
# Framed byte-stream protocol of `data_communication_pkg`

A shallow embedding of `data_communication_pkg.c` (checksum routine, frame
encoder `data_comm_send`, byte-wise decoder `data_comm_parse_byte`) built with
`USE_CRC16 = 1`, followed by theorems about it.

Conventions of the embedding:
* bytes and 16-bit registers are natural numbers; every assignment to a
  `uint16_t` that can leave the 16-bit range carries an explicit `% 65536`;
* a C array is a list of its cells; a pointer argument is the list of the cells
  from it on (`none` for the null pointer) and the length stays an argument where
  the source takes one, except that `crc16_ccitt` takes the list of the `len`
  bytes it reads;
* a store outside an array has no defined behaviour: the embedded function
  returns `none` there;
* the calls of `user_transmit` and `user_packet_handler` are recorded in the
  result of the function that makes them.
-/

namespace DataComm

set_option maxRecDepth 100000

/-! ## Configuration (`data_communication_pkg.h`) -/

/-- Frame header magic, two bytes. -/
def FRAME_HEADER : Nat := 0xAA55

/-- Frame trailer magic, two bytes. -/
def FRAME_END : Nat := 0x55AA

/-- Largest payload length in bytes. -/
def MAX_DATA_LENGTH : Nat := 256

/-! ## Types -/

/-- States of the parsing state machine. -/
inductive ParseState where
  | STATE_WAIT_HEADER1
  | STATE_WAIT_HEADER2
  | STATE_WAIT_LENGTH_HIGH
  | STATE_WAIT_LENGTH_LOW
  | STATE_WAIT_CMD
  | STATE_READ_DATA
  | STATE_WAIT_CRC1
  | STATE_WAIT_CRC2
  | STATE_WAIT_END1
  | STATE_WAIT_END2
  deriving DecidableEq, Repr

/-- The parsing context `g_ctx`. -/
structure ParseContext where
  state : ParseState
  data_index : Nat
  pkg_length : Nat
  cmd : Nat
  data : List Nat
  recv_crc : Nat
  crc_buffer : List Nat
  crc_index : Nat
  deriving DecidableEq, Repr

/-- The arguments of one call of `user_packet_handler`: the command, the payload
buffer the pointer designates, and the payload length. -/
structure Packet where
  cmd : Nat
  data : List Nat
  len : Nat
  deriving DecidableEq, Repr

/-- The payload a handler call designates: the first `len` cells of `data`. -/
def Packet.payload (pkt : Packet) : List Nat := pkt.data.take pkt.len

/-- What one call of `data_comm_send` does: the scratch buffer it leaves, the
bytes handed to `user_transmit` (`none` when it is not called) and the value
returned. -/
structure SendResult where
  buffer : List Nat
  transmitted : Option (List Nat)
  ret : Nat
  deriving DecidableEq, Repr

/-! ## Checksum -/

/-- Body of the inner `for` loop of `crc16_ccitt`. -/
def crc16_shift (crc : Nat) : Nat :=
  if crc &&& 0x8000 ≠ 0 then ((crc <<< 1) ^^^ 0x1021) % 65536 else (crc <<< 1) % 65536

/-- The inner loop `for (i = 0; i < 8; i++)`, by the number of rounds left. -/
def crc16_for : Nat → Nat → Nat
  | 0, crc => crc
  | n + 1, crc => crc16_for n (crc16_shift crc)

/-- The outer loop `while (len--)` over the bytes still to be read. -/
def crc16_while : Nat → List Nat → Nat
  | crc, [] => crc
  | crc, b :: rest => crc16_while (crc16_for 8 ((crc ^^^ (b <<< 8)) % 65536)) rest

/-- The function `crc16_ccitt(data, len)`: polynomial 0x1021, initial value 0xFFFF. -/
def crc16_ccitt (data : List Nat) : Nat := crc16_while 0xFFFF data

/-! ## Array stores -/

/-- The store `buf[i] = v`; undefined outside the array. -/
def write (buf : List Nat) (i v : Nat) : Option (List Nat) :=
  if i < buf.length then some (buf.set i v) else none

/-- The call `memcpy(&dst[off], src, n)`; undefined when it leaves either array. -/
def memcpy : List Nat → Nat → List Nat → Nat → Option (List Nat)
  | dst, _, _, 0 => some dst
  | _, _, [], _ + 1 => none
  | dst, off, b :: src, n + 1 => (write dst off b).bind fun dst1 => memcpy dst1 (off + 1) src n

/-! ## Encoder -/

/-- The function `data_comm_send(cmd, data, len)`. `buffer` is the content of the
static scratch array when the call starts, `data = none` is the null pointer. -/
def data_comm_send (buffer : List Nat) (cmd : Nat) (data : Option (List Nat)) (len : Nat) :
    Option SendResult :=
  if len > MAX_DATA_LENGTH then
    some { buffer := buffer, transmitted := none, ret := 0 }
  else do
    let index := 0
    let buffer ← write buffer index ((FRAME_HEADER >>> 8) &&& 0xFF)
    let index := index + 1
    let buffer ← write buffer index (FRAME_HEADER &&& 0xFF)
    let index := index + 1
    let total_len := (len + 1) % 65536
    let buffer ← write buffer index ((total_len >>> 8) &&& 0xFF)
    let index := index + 1
    let buffer ← write buffer index (total_len &&& 0xFF)
    let index := index + 1
    let buffer ← write buffer index cmd
    let index := index + 1
    let (buffer, index) ←
      match data with
      | some src =>
        if len > 0 then (memcpy buffer index src len).map fun b => (b, index + len)
        else some (buffer, index)
      | none => some (buffer, index)
    let crc := crc16_ccitt ((buffer.drop 2).take (index - 2))
    let buffer ← write buffer index ((crc >>> 8) &&& 0xFF)
    let index := index + 1
    let buffer ← write buffer index (crc &&& 0xFF)
    let index := index + 1
    let buffer ← write buffer index ((FRAME_END >>> 8) &&& 0xFF)
    let index := index + 1
    let buffer ← write buffer index (FRAME_END &&& 0xFF)
    let index := index + 1
    some { buffer := buffer, transmitted := some (buffer.take index), ret := index }

/-! ## Decoder -/

/-- The function `data_comm_init`: the context is zeroed and the state set. -/
def data_comm_init : ParseContext :=
  { state := .STATE_WAIT_HEADER1
    data_index := 0
    pkg_length := 0
    cmd := 0
    data := List.replicate MAX_DATA_LENGTH 0
    recv_crc := 0
    crc_buffer := List.replicate (MAX_DATA_LENGTH + 3) 0
    crc_index := 0 }

/-- The function `data_comm_parse_byte(byte)` on the context `ctx`: the context it
leaves and the call of `user_packet_handler` it makes, if any. The `default` branch
of the `switch` has no counterpart, the state being one of the ten enumerators. -/
def data_comm_parse_byte (ctx : ParseContext) (byte : Nat) :
    Option (ParseContext × Option Packet) :=
  match ctx.state with
  | .STATE_WAIT_HEADER1 =>
    if byte = (FRAME_HEADER >>> 8) &&& 0xFF then
      some ({ ctx with state := .STATE_WAIT_HEADER2 }, none)
    else some (ctx, none)
  | .STATE_WAIT_HEADER2 =>
    if byte = FRAME_HEADER &&& 0xFF then
      some ({ ctx with state := .STATE_WAIT_LENGTH_HIGH, crc_index := 0 }, none)
    else some ({ ctx with state := .STATE_WAIT_HEADER1 }, none)
  | .STATE_WAIT_LENGTH_HIGH =>
    (write ctx.crc_buffer ctx.crc_index byte).bind fun buf =>
      some ({ ctx with
                pkg_length := (byte <<< 8) % 65536
                crc_buffer := buf
                crc_index := (ctx.crc_index + 1) % 65536
                state := .STATE_WAIT_LENGTH_LOW }, none)
  | .STATE_WAIT_LENGTH_LOW =>
    (write ctx.crc_buffer ctx.crc_index byte).bind fun buf =>
      let pkg_length := (ctx.pkg_length ||| byte) % 65536
      let ctx1 := { ctx with
                      pkg_length := pkg_length
                      crc_buffer := buf
                      crc_index := (ctx.crc_index + 1) % 65536 }
      if pkg_length = 0 ∨ pkg_length > MAX_DATA_LENGTH + 1 then
        some ({ ctx1 with state := .STATE_WAIT_HEADER1 }, none)
      else some ({ ctx1 with state := .STATE_WAIT_CMD }, none)
  | .STATE_WAIT_CMD =>
    (write ctx.crc_buffer ctx.crc_index byte).bind fun buf =>
      let ctx1 := { ctx with
                      cmd := byte
                      crc_buffer := buf
                      crc_index := (ctx.crc_index + 1) % 65536
                      data_index := 0 }
      if ctx1.pkg_length = 1 then some ({ ctx1 with state := .STATE_WAIT_CRC1 }, none)
      else some ({ ctx1 with state := .STATE_READ_DATA }, none)
  | .STATE_READ_DATA =>
    (write ctx.data ctx.data_index byte).bind fun dat =>
      (write ctx.crc_buffer ctx.crc_index byte).bind fun buf =>
        let ctx1 := { ctx with
                        data := dat
                        crc_buffer := buf
                        crc_index := (ctx.crc_index + 1) % 65536
                        data_index := (ctx.data_index + 1) % 65536 }
        if (ctx1.data_index : Int) ≥ (ctx1.pkg_length : Int) - 1 then
          some ({ ctx1 with state := .STATE_WAIT_CRC1 }, none)
        else some (ctx1, none)
  | .STATE_WAIT_CRC1 =>
    some ({ ctx with recv_crc := (byte <<< 8) % 65536, state := .STATE_WAIT_CRC2 }, none)
  | .STATE_WAIT_CRC2 =>
    let ctx1 := { ctx with recv_crc := (ctx.recv_crc ||| byte) % 65536 }
    let calc_crc := crc16_ccitt (ctx1.crc_buffer.take ctx1.crc_index)
    if calc_crc ≠ ctx1.recv_crc then some ({ ctx1 with state := .STATE_WAIT_HEADER1 }, none)
    else some ({ ctx1 with state := .STATE_WAIT_END1 }, none)
  | .STATE_WAIT_END1 =>
    if byte = (FRAME_END >>> 8) &&& 0xFF then
      some ({ ctx with state := .STATE_WAIT_END2 }, none)
    else some ({ ctx with state := .STATE_WAIT_HEADER1 }, none)
  | .STATE_WAIT_END2 =>
    if byte = FRAME_END &&& 0xFF then
      some ({ ctx with state := .STATE_WAIT_HEADER1 },
            some { cmd := ctx.cmd, data := ctx.data, len := ctx.data_index })
    else some ({ ctx with state := .STATE_WAIT_HEADER1 }, none)

/-- Feeding a byte stream to the decoder, one `data_comm_parse_byte` call per byte:
the final context and, per byte fed, the handler call that byte caused. -/
def feed : ParseContext → List Nat → Option (ParseContext × List (Option Packet))
  | ctx, [] => some (ctx, [])
  | ctx, b :: rest =>
    (data_comm_parse_byte ctx b).bind fun r =>
      (feed r.1 rest).bind fun t => some (t.1, r.2 :: t.2)

/-! ## The specification's words -/

/-- One of the eight rounds of the checksum as the specification words it (§4.1):
if the high bit of the 16-bit accumulator is set, shift left one bit and XOR with
the polynomial `0x1021`, otherwise just shift left one bit; the accumulator is
truncated to 16 bits. -/
def checksum_round (acc : Nat) : Nat :=
  if acc.testBit 15 then ((acc * 2) ^^^ 0x1021) % 65536 else (acc * 2) % 65536

/-- One input byte of the checksum as the specification words it: XOR the byte,
shifted into the high 8 bits of the accumulator, into the accumulator, then
perform 8 rounds. -/
def checksum_byte (acc b : Nat) : Nat :=
  checksum_round^[8] ((acc ^^^ (b * 2 ^ 8)) % 65536)

/-- The checksum as the specification words it: the accumulator starts at
`0xFFFF` and takes the input bytes in order; no final XOR, no reflection. -/
def checksum_spec (bytes : List Nat) : Nat := bytes.foldl checksum_byte 0xFFFF

/-- The wire format as the specification words it (§6): header `AA 55`, length
`1 + len(payload)` big-endian, command, payload, checksum of
length ‖ command ‖ payload big-endian, trailer `55 AA`. -/
def wire_frame (c : Nat) (p : List Nat) : List Nat :=
  [0xAA, 0x55, ((p.length + 1) >>> 8) &&& 0xFF, (p.length + 1) &&& 0xFF, c] ++ p ++
    [(crc16_ccitt ([((p.length + 1) >>> 8) &&& 0xFF, (p.length + 1) &&& 0xFF, c] ++ p) >>> 8)
        &&& 0xFF,
      crc16_ccitt ([((p.length + 1) >>> 8) &&& 0xFF, (p.length + 1) &&& 0xFF, c] ++ p) &&& 0xFF,
      0x55, 0xAA]

/-- The byte stream `l` with bit `k` of its byte at position `i` flipped. -/
def flip_bit : List Nat → Nat → Nat → List Nat
  | [], _, _ => []
  | b :: rest, 0, k => (b ^^^ (1 <<< k)) :: rest
  | b :: rest, i + 1, k => b :: flip_bit rest i k

/-- The calls of `data_comm_parse_byte` that abort the frame in flight: the branches
that send the decoder back to `STATE_WAIT_HEADER1` because the length is out of
range, the checksum does not match or a trailer byte is wrong. -/
def aborts (ctx : ParseContext) (byte : Nat) : Bool :=
  match ctx.state with
  | .STATE_WAIT_LENGTH_LOW =>
    decide ((ctx.pkg_length ||| byte) % 65536 = 0
      ∨ (ctx.pkg_length ||| byte) % 65536 > MAX_DATA_LENGTH + 1)
  | .STATE_WAIT_CRC2 =>
    decide (crc16_ccitt (ctx.crc_buffer.take ctx.crc_index) ≠ (ctx.recv_crc ||| byte) % 65536)
  | .STATE_WAIT_END1 => decide (byte ≠ (FRAME_END >>> 8) &&& 0xFF)
  | .STATE_WAIT_END2 => decide (byte ≠ FRAME_END &&& 0xFF)
  | _ => false

/-! ## Invariant of the decoder -/

/-- The frame in flight: the decoder has read, as the last bytes of the stream `s`,
the header, the length bytes `hi lo`, the command, the payload bytes `d` and the
bytes `tl` after the payload, and its context holds them. -/
def InFlight (ctx : ParseContext) (s : List Nat) (hi lo : Nat) (d tl : List Nat) : Prop :=
  hi < 256 ∧ lo < 256 ∧ ([0xAA, 0x55, hi, lo, ctx.cmd] ++ d ++ tl) <:+ s ∧
  ctx.crc_index = d.length + 3 ∧ ctx.crc_buffer.take (d.length + 3) = hi :: lo :: ctx.cmd :: d ∧
  ctx.data_index = d.length ∧ ctx.data.take d.length = d ∧
  ctx.pkg_length = hi * 256 + lo ∧ ctx.pkg_length ≤ MAX_DATA_LENGTH + 1

/-- What holds of the context after the decoder, started by `data_comm_init`, has read
the byte stream `s`. -/
def Inv (ctx : ParseContext) (s : List Nat) : Prop :=
  ctx.data.length = MAX_DATA_LENGTH ∧ ctx.crc_buffer.length = MAX_DATA_LENGTH + 3 ∧
  match ctx.state with
  | .STATE_WAIT_HEADER1 => True
  | .STATE_WAIT_HEADER2 => [0xAA] <:+ s
  | .STATE_WAIT_LENGTH_HIGH => [0xAA, 0x55] <:+ s ∧ ctx.crc_index = 0
  | .STATE_WAIT_LENGTH_LOW =>
    ∃ hi, hi < 256 ∧ [0xAA, 0x55, hi] <:+ s ∧ ctx.crc_index = 1 ∧
      ctx.crc_buffer.take 1 = [hi] ∧ ctx.pkg_length = hi * 256
  | .STATE_WAIT_CMD =>
    ∃ hi lo, hi < 256 ∧ lo < 256 ∧ [0xAA, 0x55, hi, lo] <:+ s ∧ ctx.crc_index = 2 ∧
      ctx.crc_buffer.take 2 = [hi, lo] ∧ ctx.pkg_length = hi * 256 + lo ∧
      1 ≤ ctx.pkg_length ∧ ctx.pkg_length ≤ MAX_DATA_LENGTH + 1
  | .STATE_READ_DATA =>
    ∃ hi lo d, InFlight ctx s hi lo d [] ∧ d.length + 1 < ctx.pkg_length
  | .STATE_WAIT_CRC1 =>
    ∃ hi lo d, InFlight ctx s hi lo d [] ∧ d.length + 1 = ctx.pkg_length
  | .STATE_WAIT_CRC2 =>
    ∃ hi lo d k1, InFlight ctx s hi lo d [k1] ∧ d.length + 1 = ctx.pkg_length ∧
      k1 < 256 ∧ ctx.recv_crc = k1 * 256
  | .STATE_WAIT_END1 =>
    ∃ hi lo d k1 k2, InFlight ctx s hi lo d [k1, k2] ∧ d.length + 1 = ctx.pkg_length ∧
      k1 < 256 ∧ k2 < 256 ∧ k1 * 256 + k2 = crc16_ccitt (hi :: lo :: ctx.cmd :: d)
  | .STATE_WAIT_END2 =>
    ∃ hi lo d k1 k2, InFlight ctx s hi lo d [k1, k2, 0x55] ∧ d.length + 1 = ctx.pkg_length ∧
      k1 < 256 ∧ k2 < 256 ∧ k1 * 256 + k2 = crc16_ccitt (hi :: lo :: ctx.cmd :: d)

/-- A handler call is backed by the stream `t` read so far: the payload it designates
has at most `MAX_DATA_LENGTH` bytes and the frame of its command and payload is made
of the last bytes of `t`. -/
def Delivered (pkt : Packet) (t : List Nat) : Prop :=
  pkt.len ≤ MAX_DATA_LENGTH ∧ pkt.payload.length = pkt.len ∧
    wire_frame pkt.cmd pkt.payload <:+ t

/-- The call `data_comm_parse_byte(b)` after the stream `s` is defined, keeps the
invariant and makes a handler call only if it is backed by the stream. -/
def StepOK (ctx : ParseContext) (s : List Nat) (b : Nat) : Prop :=
  match data_comm_parse_byte ctx b with
  | none => False
  | some r => Inv r.1 (s ++ [b]) ∧ ∀ pkt, r.2 = some pkt → Delivered pkt (s ++ [b])

/-! ## Distance to a handler call, contexts the decoder cannot tell apart, streams of frames -/

/-- The least number of bytes a decoder in the given state has to read before it can
call the handler. -/
def frame_distance : ParseState → Nat
  | .STATE_WAIT_HEADER1 => 9
  | .STATE_WAIT_HEADER2 => 8
  | .STATE_WAIT_LENGTH_HIGH => 7
  | .STATE_WAIT_LENGTH_LOW => 6
  | .STATE_WAIT_CMD => 5
  | .STATE_READ_DATA => 5
  | .STATE_WAIT_CRC1 => 4
  | .STATE_WAIT_CRC2 => 3
  | .STATE_WAIT_END1 => 2
  | .STATE_WAIT_END2 => 1

/-- What a handler call lets the handler observe: the command, the payload
`data[0..len]` and the length. -/
def Packet.view (pkt : Packet) : Nat × List Nat × Nat := (pkt.cmd, pkt.payload, pkt.len)

/-- Two contexts agree on the length bytes of the frame in flight. -/
def SimHead (a b : ParseContext) : Prop :=
  a.crc_index = b.crc_index ∧ a.pkg_length = b.pkg_length ∧
    a.crc_buffer.take a.crc_index = b.crc_buffer.take b.crc_index

/-- Two contexts agree on the command and payload of the frame in flight. -/
def SimBody (a b : ParseContext) : Prop :=
  a.cmd = b.cmd ∧ a.data_index = b.data_index ∧
    a.data.take a.data_index = b.data.take b.data_index

/-- Two contexts that the decoder cannot tell apart: the same state and the same
content in the fields that state still reads; the other fields may differ. -/
def Sim (a b : ParseContext) : Prop :=
  a.state = b.state ∧
  a.data.length = MAX_DATA_LENGTH ∧ b.data.length = MAX_DATA_LENGTH ∧
  a.crc_buffer.length = MAX_DATA_LENGTH + 3 ∧ b.crc_buffer.length = MAX_DATA_LENGTH + 3 ∧
  match a.state with
  | .STATE_WAIT_HEADER1 => True
  | .STATE_WAIT_HEADER2 => True
  | .STATE_WAIT_LENGTH_HIGH => a.crc_index = 0 ∧ b.crc_index = 0
  | .STATE_WAIT_LENGTH_LOW => SimHead a b
  | .STATE_WAIT_CMD => SimHead a b
  | .STATE_READ_DATA => SimHead a b ∧ SimBody a b
  | .STATE_WAIT_CRC1 => SimHead a b ∧ SimBody a b
  | .STATE_WAIT_CRC2 => SimHead a b ∧ SimBody a b ∧ a.recv_crc = b.recv_crc
  | .STATE_WAIT_END1 => SimHead a b ∧ SimBody a b
  | .STATE_WAIT_END2 => SimHead a b ∧ SimBody a b

/-- The calls `data_comm_parse_byte(x)` on two contexts are both defined or both
undefined, leave contexts the decoder cannot tell apart and make the same handler
call. -/
def SimStep (a b : ParseContext) (x : Nat) : Prop :=
  match data_comm_parse_byte a x, data_comm_parse_byte b x with
  | some r1, some r2 => Sim r1.1 r2.1 ∧ r1.2.map Packet.view = r2.2.map Packet.view
  | none, none => True
  | _, _ => False

/-- The byte stream successive calls of `data_comm_send` hand to `user_transmit`, one
call per (command, payload) pair, each call starting from the scratch buffer the
previous one left. -/
def send_all : List Nat → List (Nat × List Nat) → Option (List Nat)
  | _, [] => some []
  | buf, f :: fs =>
    (data_comm_send buf f.1 (some f.2) f.2.length).bind fun r =>
      r.transmitted.bind fun frame => (send_all r.buffer fs).map fun s => frame ++ s

/-- The handler calls a stream of whole frames is due: per frame, none on all its bytes
but the last, and on the last byte one call with its command, payload and length. -/
def frames_calls : List (Nat × List Nat) → List (Option (Nat × List Nat × Nat))
  | [] => []
  | f :: fs =>
    List.replicate (f.2.length + 8) none ++ [some (f.1, f.2, f.2.length)] ++ frames_calls fs

/-- The least number of bytes a decoder with the given context has to read before it
can call the handler; in `READ_DATA` the payload bytes still due are counted. -/
def bytes_needed (ctx : ParseContext) : Nat :=
  match ctx.state with
  | .STATE_READ_DATA => (ctx.pkg_length - 1 - ctx.data_index) + 4
  | st => frame_distance st

/-- The context of a decoder that, freshly initialised, has read
`AA 55 00 03 10 02 03 9F`: the frame of command 0x10 and payload `02 03` up to its
first checksum byte. -/
def crc2_example : ParseContext :=
  { state := .STATE_WAIT_CRC2
    data_index := 2
    pkg_length := 3
    cmd := 0x10
    data := [0x02, 0x03] ++ List.replicate 254 0
    recv_crc := 0x9F00
    crc_buffer := [0x00, 0x03, 0x10, 0x02, 0x03] ++ List.replicate 254 0
    crc_index := 5 }

/-! ## Arithmetic of bytes and 16-bit words -/

theorem and_255 (x : Nat) : x &&& 0xFF = x % 256 := by
  have h := Nat.and_pow_two_sub_one_eq_mod x 8
  simpa using h

theorem shl_8 (x : Nat) : x <<< 8 = x * 256 := by
  simp [Nat.shiftLeft_eq]

theorem shr_8 (x : Nat) : x >>> 8 = x / 256 := by
  simp [Nat.shiftRight_eq_div_pow]

theorem shl_1 (x : Nat) : x <<< 1 = 2 * x := by
  simp [Nat.shiftLeft_eq, Nat.mul_comm]

theorem or_low (hi lo : Nat) (hlo : lo < 256) : hi * 256 ||| lo = hi * 256 + lo := by
  have h := Nat.mul_add_lt_is_or (show lo < 2 ^ 8 by simpa using hlo) hi
  norm_num at h
  rw [Nat.mul_comm hi 256, h]

/-- Joining two bytes the way the decoder does gives the big-endian word. -/
theorem join16 (hi lo : Nat) (hhi : hi < 256) (hlo : lo < 256) :
    ((hi <<< 8) % 65536 ||| lo) % 65536 = hi * 256 + lo := by
  rw [shl_8, Nat.mod_eq_of_lt (show hi * 256 < 65536 by omega), or_low hi lo hlo]
  exact Nat.mod_eq_of_lt (by omega)

/-- Splitting a 16-bit word into its bytes and joining them gives the word back. -/
theorem join16_split (x : Nat) (hx : x < 65536) :
    ((((x >>> 8) &&& 0xFF) <<< 8) % 65536 ||| (x &&& 0xFF)) % 65536 = x := by
  rw [and_255, and_255, shr_8, join16 _ _ (Nat.mod_lt _ (by norm_num)) (Nat.mod_lt _ (by norm_num))]
  omega

theorem xor_mod_65536 (a b : Nat) : (a ^^^ b) % 65536 = (a % 65536) ^^^ (b % 65536) := by
  apply Nat.eq_of_testBit_eq
  intro i
  have h1 := Nat.testBit_mod_two_pow (a ^^^ b) 16 i
  have h2 := Nat.testBit_mod_two_pow a 16 i
  have h3 := Nat.testBit_mod_two_pow b 16 i
  norm_num at h1 h2 h3
  rw [h1, Nat.testBit_xor, h2, h3]
  by_cases hi : i < 16 <;> simp [hi]

theorem and_8000 (x : Nat) (h : x < 65536) : (x &&& 0x8000 ≠ 0) ↔ 32768 ≤ x := by
  have h1 := Nat.and_two_pow x 15
  have h2 := @Nat.testBit_to_div_mod 15 x
  norm_num at h1 h2
  rw [h1, h2]
  by_cases hx : 32768 ≤ x
  · have h3 : x / 32768 = 1 := by omega
    simp [h3, hx]
  · have h3 : x / 32768 = 0 := by omega
    simp [h3, hx]

/-! ## Facts about the checksum -/

theorem crc16_shift_lt (x : Nat) : crc16_shift x < 65536 := by
  unfold crc16_shift
  split <;> exact Nat.mod_lt _ (by norm_num)

theorem crc16_shift_high (x : Nat) (h : x < 65536) (hx : 32768 ≤ x) :
    crc16_shift x = (2 * x - 65536) ^^^ 0x1021 := by
  unfold crc16_shift
  rw [if_pos ((and_8000 x h).2 hx), xor_mod_65536, shl_1]
  have h1 : 2 * x % 65536 = 2 * x - 65536 := by omega
  rw [h1]

theorem crc16_shift_low (x : Nat) (h : x < 65536) (hx : ¬ 32768 ≤ x) :
    crc16_shift x = 2 * x := by
  unfold crc16_shift
  rw [if_neg (fun hc => hx ((and_8000 x h).1 hc)), shl_1]
  omega

theorem crc16_shift_inj (x y : Nat) (hx : x < 65536) (hy : y < 65536)
    (h : crc16_shift x = crc16_shift y) : x = y := by
  by_cases h1 : 32768 ≤ x <;> by_cases h2 : 32768 ≤ y
  · rw [crc16_shift_high x hx h1, crc16_shift_high y hy h2] at h
    have h3 := Nat.xor_left_injective h
    omega
  · rw [crc16_shift_high x hx h1, crc16_shift_low y hy h2] at h
    have h3 := @Nat.xor_mod_two_eq (2 * x - 65536) 0x1021
    rw [h] at h3
    omega
  · rw [crc16_shift_low x hx h1, crc16_shift_high y hy h2] at h
    have h3 := @Nat.xor_mod_two_eq (2 * y - 65536) 0x1021
    rw [← h] at h3
    omega
  · rw [crc16_shift_low x hx h1, crc16_shift_low y hy h2] at h
    omega

theorem crc16_for_lt (n x : Nat) (hx : x < 65536) : crc16_for n x < 65536 := by
  induction n generalizing x with
  | zero => simpa [crc16_for] using hx
  | succ n ih => exact ih _ (crc16_shift_lt x)

theorem crc16_for_inj (n x y : Nat) (hx : x < 65536) (hy : y < 65536)
    (h : crc16_for n x = crc16_for n y) : x = y := by
  induction n generalizing x y with
  | zero => simpa [crc16_for] using h
  | succ n ih =>
    exact crc16_shift_inj x y hx hy (ih _ _ (crc16_shift_lt x) (crc16_shift_lt y) h)

theorem crc16_while_lt (s : Nat) (l : List Nat) (hs : s < 65536) : crc16_while s l < 65536 := by
  induction l generalizing s with
  | nil => simpa [crc16_while] using hs
  | cons b rest ih => exact ih _ (crc16_for_lt _ _ (Nat.mod_lt _ (by norm_num)))

theorem crc16_ccitt_lt (l : List Nat) : crc16_ccitt l < 65536 :=
  crc16_while_lt _ l (by norm_num)

theorem crc16_while_append (s : Nat) (xs ys : List Nat) :
    crc16_while s (xs ++ ys) = crc16_while (crc16_while s xs) ys := by
  induction xs generalizing s with
  | nil => rfl
  | cons b rest ih => exact ih _

/-- The checksum of the bytes read so far determines the accumulator they started from. -/
theorem crc16_while_inj (l : List Nat) (s t : Nat) (hs : s < 65536) (ht : t < 65536)
    (h : crc16_while s l = crc16_while t l) : s = t := by
  induction l generalizing s t with
  | nil => simpa [crc16_while] using h
  | cons b rest ih =>
    have h1 := ih _ _ (crc16_for_lt 8 _ (Nat.mod_lt _ (by norm_num)))
      (crc16_for_lt 8 _ (Nat.mod_lt _ (by norm_num))) h
    have h2 := crc16_for_inj 8 _ _ (Nat.mod_lt _ (by norm_num)) (Nat.mod_lt _ (by norm_num)) h1
    rw [xor_mod_65536, xor_mod_65536 t, Nat.mod_eq_of_lt hs, Nat.mod_eq_of_lt ht] at h2
    exact Nat.xor_left_injective h2

/-- Two byte spans that differ in one byte have different checksums. -/
theorem crc16_ccitt_one_byte (xs ys : List Nat) (b c : Nat) (hb : b < 256) (hc : c < 256)
    (h : crc16_ccitt (xs ++ b :: ys) = crc16_ccitt (xs ++ c :: ys)) : b = c := by
  unfold crc16_ccitt at h
  rw [crc16_while_append, crc16_while_append] at h
  have hs : crc16_while 0xFFFF xs < 65536 := crc16_while_lt _ _ (by norm_num)
  have h1 := crc16_while_inj ys _ _ (crc16_for_lt 8 _ (Nat.mod_lt _ (by norm_num)))
    (crc16_for_lt 8 _ (Nat.mod_lt _ (by norm_num))) h
  have h2 := crc16_for_inj 8 _ _ (Nat.mod_lt _ (by norm_num)) (Nat.mod_lt _ (by norm_num)) h1
  rw [xor_mod_65536, xor_mod_65536 _ (c <<< 8), Nat.mod_eq_of_lt hs, shl_8, shl_8,
    Nat.mod_eq_of_lt (show b * 256 < 65536 by omega),
    Nat.mod_eq_of_lt (show c * 256 < 65536 by omega)] at h2
  have h3 := Nat.xor_right_injective h2
  omega

/-! ## The checksum of the source is the checksum of the specification -/

theorem crc16_shift_eq (x : Nat) : crc16_shift x = checksum_round x := by
  unfold crc16_shift checksum_round
  have h1 := Nat.and_two_pow x 15
  norm_num at h1
  rw [h1, Nat.shiftLeft_eq]
  cases h : x.testBit 15 <;> simp

theorem crc16_for_eq (n x : Nat) : crc16_for n x = checksum_round^[n] x := by
  induction n generalizing x with
  | zero => rfl
  | succ n ih => rw [Function.iterate_succ_apply, ← crc16_shift_eq, ← ih]; rfl

theorem crc16_while_eq (s : Nat) (l : List Nat) : crc16_while s l = l.foldl checksum_byte s := by
  induction l generalizing s with
  | nil => rfl
  | cons b rest ih =>
    rw [List.foldl_cons, ← ih]
    simp only [crc16_while, checksum_byte, crc16_for_eq, Nat.shiftLeft_eq]

/-! ## The encoder -/

theorem write_zero (x v : Nat) (t : List Nat) : write (x :: t) 0 v = some (v :: t) := by
  simp [write]

theorem write_succ (x v k : Nat) (t : List Nat) :
    write (x :: t) (k + 1) v = (write t k v).map (x :: ·) := by
  unfold write
  by_cases h : k < t.length <;> simp [h]

theorem write_append (pre t : List Nat) (k v : Nat) :
    write (pre ++ t) (pre.length + k) v = (write t k v).map (pre ++ ·) := by
  induction pre with
  | nil => simp
  | cons x pre ih =>
    have e : (x :: pre).length + k = (pre.length + k) + 1 := by simp; omega
    rw [e, List.cons_append, write_succ, ih]
    cases write t k v <;> simp

theorem memcpy_succ (x k : Nat) (t src : List Nat) (n : Nat) :
    memcpy (x :: t) (k + 1) src n = (memcpy t k src n).map (x :: ·) := by
  induction n generalizing t k src with
  | zero => simp [memcpy]
  | succ n ih =>
    cases src with
    | nil => simp [memcpy]
    | cons b src =>
      simp only [memcpy, write_succ]
      cases h : write t k b with
      | none => simp
      | some t1 => simp [ih]

theorem memcpy_zero (mid suf src : List Nat) (h : mid.length = src.length) :
    memcpy (mid ++ suf) 0 src src.length = some (src ++ suf) := by
  induction src generalizing mid with
  | nil =>
    have : mid = [] := List.length_eq_zero.mp (by simpa using h)
    subst this
    simp [memcpy]
  | cons b src ih =>
    cases mid with
    | nil => simp at h
    | cons m mid =>
      simp only [List.length_cons, List.cons_append, memcpy, write_zero, Option.some_bind,
        Nat.zero_add]
      rw [memcpy_succ, ih mid (by simpa using h)]
      simp

theorem split_buffer (buf : List Nat) (n : Nat) (h : n + 9 ≤ buf.length) :
    ∃ x0 x1 x2 x3 x4 mid y0 y1 y2 y3 rest,
      buf = x0 :: x1 :: x2 :: x3 :: x4 :: (mid ++ y0 :: y1 :: y2 :: y3 :: rest) ∧
        mid.length = n := by
  match buf, h with
  | x0 :: x1 :: x2 :: x3 :: x4 :: t, h =>
    have ht : n + 4 ≤ t.length := by simp at h; omega
    have e : t = t.take n ++ t.drop n := (List.take_append_drop n t).symm
    have hd : 4 ≤ (t.drop n).length := by simp; omega
    match hq : t.drop n, hd with
    | y0 :: y1 :: y2 :: y3 :: rest, _ =>
      refine ⟨x0, x1, x2, x3, x4, t.take n, y0, y1, y2, y3, rest, ?_, ?_⟩
      · rw [← hq, ← e]
      · simp; omega

theorem hdr_hi : (FRAME_HEADER >>> 8) &&& 0xFF = 0xAA := by decide
theorem hdr_lo : FRAME_HEADER &&& 0xFF = 0x55 := by decide
theorem end_hi : (FRAME_END >>> 8) &&& 0xFF = 0x55 := by decide
theorem end_lo : FRAME_END &&& 0xFF = 0xAA := by decide

/-- Four consecutive stores right after the first `pre.length` cells. -/
theorem write_four (pre rest : List Nat) (y0 y1 y2 y3 v0 v1 v2 v3 k : Nat)
    (hk : pre.length = k) :
    write (pre ++ y0 :: y1 :: y2 :: y3 :: rest) k v0 = some (pre ++ v0 :: y1 :: y2 :: y3 :: rest) ∧
    write (pre ++ v0 :: y1 :: y2 :: y3 :: rest) (k + 1) v1
      = some (pre ++ v0 :: v1 :: y2 :: y3 :: rest) ∧
    write (pre ++ v0 :: v1 :: y2 :: y3 :: rest) (k + 1 + 1) v2
      = some (pre ++ v0 :: v1 :: v2 :: y3 :: rest) ∧
    write (pre ++ v0 :: v1 :: v2 :: y3 :: rest) (k + 1 + 1 + 1) v3
      = some (pre ++ v0 :: v1 :: v2 :: v3 :: rest) := by
  subst hk
  refine ⟨?_, ?_, ?_, ?_⟩
  · have h := write_append pre (y0 :: y1 :: y2 :: y3 :: rest) 0 v0
    simpa [write_zero] using h
  · have h := write_append pre (v0 :: y1 :: y2 :: y3 :: rest) 1 v1
    simpa [write_zero, write_succ] using h
  · have h := write_append pre (v0 :: v1 :: y2 :: y3 :: rest) 2 v2
    simpa [write_zero, write_succ] using h
  · have h := write_append pre (v0 :: v1 :: v2 :: y3 :: rest) 3 v3
    simpa [write_zero, write_succ] using h

/-- What `data_comm_send` does on a payload of at most `MAX_DATA_LENGTH` bytes: the
frame of the specification is written at the start of the scratch buffer, handed to
`user_transmit`, and its length returned. -/
theorem send_ok (buf : List Nat) (c : Nat) (p : List Nat)
    (hbuf : buf.length = MAX_DATA_LENGTH + 10) (hp : p.length ≤ MAX_DATA_LENGTH) :
    ∃ rest, data_comm_send buf c (some p) p.length =
      some { buffer := wire_frame c p ++ rest
             transmitted := some (wire_frame c p)
             ret := p.length + 9 } := by
  obtain ⟨x0, x1, x2, x3, x4, mid, y0, y1, y2, y3, rest, rfl, hmid⟩ :=
    split_buffer buf p.length (by rw [hbuf]; unfold MAX_DATA_LENGTH at *; omega)
  refine ⟨rest, ?_⟩
  unfold MAX_DATA_LENGTH at hp
  have hlen : (p.length + 1) % 65536 = p.length + 1 := Nat.mod_eq_of_lt (by omega)
  have hm : ∀ a0 a1 a2 a3 a4 : Nat,
      memcpy (a0 :: a1 :: a2 :: a3 :: a4 :: (mid ++ y0 :: y1 :: y2 :: y3 :: rest)) 5 p p.length
        = some (a0 :: a1 :: a2 :: a3 :: a4 :: (p ++ y0 :: y1 :: y2 :: y3 :: rest)) := by
    intro a0 a1 a2 a3 a4
    rw [show (5 : Nat) = 0 + 1 + 1 + 1 + 1 + 1 from rfl]
    simp only [memcpy_succ]
    rw [memcpy_zero _ _ _ hmid]
    rfl
  have hm0 : memcpy (mid ++ y0 :: y1 :: y2 :: y3 :: rest) 0 p p.length
      = some (p ++ y0 :: y1 :: y2 :: y3 :: rest) := memcpy_zero _ _ _ hmid
  unfold data_comm_send
  rw [if_neg (by unfold MAX_DATA_LENGTH; omega)]
  simp only [hlen, Nat.zero_add, Nat.reduceAdd, write_zero, write_succ, Option.map_some',
    Option.bind_eq_bind, Option.some_bind, Option.pure_def, Option.map_eq_map, bind_pure_comp,
    hdr_hi, hdr_lo, end_hi, end_lo]
  by_cases hpos : p.length > 0
  · rw [if_pos hpos, hm]
    simp only [Option.map_some', Option.some_bind]
    obtain ⟨w0, w1, w2, w3⟩ := write_four
      ([0xAA, 0x55, ((p.length + 1) >>> 8) &&& 0xFF, (p.length + 1) &&& 0xFF, c] ++ p) rest
      y0 y1 y2 y3
      ((crc16_ccitt ([((p.length + 1) >>> 8) &&& 0xFF, (p.length + 1) &&& 0xFF, c] ++ p) >>> 8)
        &&& 0xFF)
      (crc16_ccitt ([((p.length + 1) >>> 8) &&& 0xFF, (p.length + 1) &&& 0xFF, c] ++ p) &&& 0xFF)
      0x55 0xAA (5 + p.length) (by simp; omega)
    have hspan : List.take (5 + p.length - 2) (List.drop 2 (170 :: 85 ::
        ((p.length + 1) >>> 8 &&& 255) :: (p.length + 1 &&& 255) :: c ::
          (p ++ y0 :: y1 :: y2 :: y3 :: rest)))
        = [((p.length + 1) >>> 8) &&& 0xFF, (p.length + 1) &&& 0xFF, c] ++ p := by
      have e : 5 + p.length - 2 = ([(p.length + 1) >>> 8 &&& 255, p.length + 1 &&& 255, c]
          ++ p).length := by simp; omega
      rw [e]
      simp only [List.drop_succ_cons, List.drop_zero]
      exact List.take_left' rfl
    have hbufeq : (170 :: 85 :: ((p.length + 1) >>> 8 &&& 255) :: (p.length + 1 &&& 255) :: c ::
          (p ++ y0 :: y1 :: y2 :: y3 :: rest))
        = [170, 85, (p.length + 1) >>> 8 &&& 255, p.length + 1 &&& 255, c] ++ p
            ++ y0 :: y1 :: y2 :: y3 :: rest := by simp
    rw [hspan, hbufeq, w0, Option.some_bind, w1, Option.some_bind, w2, Option.some_bind, w3,
      Option.some_bind]
    have hw : [170, 85, (p.length + 1) >>> 8 &&& 255, p.length + 1 &&& 255, c] ++ p ++
        (crc16_ccitt ([(p.length + 1) >>> 8 &&& 255, p.length + 1 &&& 255, c] ++ p) >>> 8
            &&& 255) ::
          (crc16_ccitt ([(p.length + 1) >>> 8 &&& 255, p.length + 1 &&& 255, c] ++ p) &&& 255) ::
            85 :: 170 :: rest = wire_frame c p ++ rest := by
      simp [wire_frame]
    have hwl : 5 + p.length + 1 + 1 + 1 + 1 = (wire_frame c p).length := by
      simp [wire_frame]; omega
    rw [hw, hwl, List.take_left' rfl, ← hwl]
    have e9 : 5 + p.length + 1 + 1 + 1 + 1 = p.length + 9 := by omega
    rw [e9]
  · have hp0 : p = [] := List.length_eq_zero.mp (by omega)
    subst hp0
    have hmid0 : mid = [] := List.length_eq_zero.mp (by simpa using hmid)
    subst hmid0
    simp [write_zero, write_succ, wire_frame]

/-! ## Running the decoder -/

theorem feed_append (ctx : ParseContext) (xs ys : List Nat) :
    feed ctx (xs ++ ys) =
      (feed ctx xs).bind fun t => (feed t.1 ys).bind fun u => some (u.1, t.2 ++ u.2) := by
  induction xs generalizing ctx with
  | nil =>
    simp only [List.nil_append, feed, Option.some_bind]
    cases feed ctx ys <;> simp
  | cons b rest ih =>
    show feed ctx (b :: (rest ++ ys)) = _
    simp only [feed]
    cases data_comm_parse_byte ctx b with
    | none => simp
    | some r =>
      simp only [Option.some_bind]
      rw [ih]
      cases feed r.1 rest with
      | none => simp
      | some t =>
        simp only [Option.some_bind]
        cases feed t.1 ys <;> simp

theorem take_set_succ (l : List Nat) (i b : Nat) (h : i < l.length) :
    (l.set i b).take (i + 1) = l.take i ++ [b] := by
  rw [List.set_eq_take_append_cons_drop, if_pos h]
  have e : List.take i l ++ b :: List.drop (i + 1) l
      = (List.take i l ++ [b]) ++ List.drop (i + 1) l := by simp
  rw [e]
  exact List.take_left' (by simp; omega)

theorem feed_read (q : List Nat) : ∀ ctx : ParseContext,
    ctx.state = .STATE_READ_DATA → ctx.data.length = MAX_DATA_LENGTH →
    ctx.crc_buffer.length = MAX_DATA_LENGTH + 3 → ctx.crc_index = ctx.data_index + 3 →
    ctx.data_index + q.length + 1 = ctx.pkg_length → ctx.pkg_length ≤ MAX_DATA_LENGTH + 1 →
    q ≠ [] →
    ∃ ctx1, feed ctx q = some (ctx1, List.replicate q.length none) ∧
      ctx1.state = .STATE_WAIT_CRC1 ∧ ctx1.cmd = ctx.cmd ∧
      ctx1.data_index = ctx.data_index + q.length ∧
      ctx1.data.take ctx1.data_index = ctx.data.take ctx.data_index ++ q ∧
      ctx1.crc_index = ctx.crc_index + q.length ∧
      ctx1.crc_buffer.take ctx1.crc_index = ctx.crc_buffer.take ctx.crc_index ++ q ∧
      ctx1.data.length = MAX_DATA_LENGTH ∧ ctx1.crc_buffer.length = MAX_DATA_LENGTH + 3 := by
  induction q with
  | nil => intro ctx _ _ _ _ _ _ h; exact absurd rfl h
  | cons b rest ih =>
    intro ctx hst hd hc hci hlen hmax _
    obtain ⟨st, di, pl, cmd, dat, rc, cb, ci⟩ := ctx
    simp only [MAX_DATA_LENGTH, List.length_cons] at *
    subst hst hci hlen
    have hw1 : write dat di b = some (dat.set di b) := by
      unfold write; rw [if_pos (by omega)]
    have hw2 : write cb (di + 3) b = some (cb.set (di + 3) b) := by
      unfold write; rw [if_pos (by omega)]
    have hm1 : (di + 1) % 65536 = di + 1 := Nat.mod_eq_of_lt (by omega)
    have hm2 : (di + 3 + 1) % 65536 = di + 3 + 1 := Nat.mod_eq_of_lt (by omega)
    by_cases hr : rest = []
    · subst hr
      refine ⟨{ state := .STATE_WAIT_CRC1, data_index := di + 1, pkg_length := di + (0 + 1) + 1,
                cmd := cmd, data := dat.set di b, recv_crc := rc, crc_buffer := cb.set (di + 3) b,
                crc_index := di + 3 + 1 }, ?_, ?_⟩
      · simp only [feed, data_comm_parse_byte, hw1, hw2, hm1, hm2, Option.some_bind]
        rw [if_pos (by simp)]
        rfl
      · simp only [List.length_nil, Nat.add_zero, List.length_set, true_and]
        exact ⟨take_set_succ dat di b (by omega), take_set_succ cb (di + 3) b (by omega), hd, hc⟩
    · obtain ⟨ctx1, hf, h1, h2, h3, h4, h5, h6, h7, h8⟩ := ih
        { state := .STATE_READ_DATA, data_index := di + 1, pkg_length := di + (rest.length + 1) + 1,
          cmd := cmd, data := dat.set di b, recv_crc := rc, crc_buffer := cb.set (di + 3) b,
          crc_index := di + 3 + 1 }
        rfl (by simpa using hd) (by simpa using hc)
        (by simp only []) (by simp only []; omega) hmax hr
      refine ⟨ctx1, ?_, h1, h2, ?_, ?_, ?_, ?_, h7, h8⟩
      · have hpos : 0 < rest.length := List.length_pos.mpr hr
        simp only [feed, data_comm_parse_byte, hw1, hw2, hm1, hm2, Option.some_bind]
        rw [if_neg (by push_cast; omega)]
        simp only [Option.some_bind]
        rw [hf]
        rfl
      · rw [h3]; simp only []; omega
      · rw [h4]
        simp only []
        rw [take_set_succ _ _ _ (by omega)]
        simp
      · rw [h5]; simp only []; omega
      · rw [h6]
        simp only []
        rw [take_set_succ _ _ _ (by omega)]
        simp

/-- From header search, the header, a valid length and the command byte. -/
theorem feed_head (ctx : ParseContext) (hi lo c : Nat)
    (hst : ctx.state = .STATE_WAIT_HEADER1) (hc : ctx.crc_buffer.length = MAX_DATA_LENGTH + 3)
    (hhi : hi < 256) (hlo : lo < 256) (h1 : 1 ≤ hi * 256 + lo)
    (h2 : hi * 256 + lo ≤ MAX_DATA_LENGTH + 1) :
    feed ctx [0xAA, 0x55, hi, lo, c] =
      some ({ state := if hi * 256 + lo = 1 then .STATE_WAIT_CRC1 else .STATE_READ_DATA
              data_index := 0
              pkg_length := hi * 256 + lo
              cmd := c
              data := ctx.data
              recv_crc := ctx.recv_crc
              crc_buffer := ((ctx.crc_buffer.set 0 hi).set 1 lo).set 2 c
              crc_index := 3 }, [none, none, none, none, none]) := by
  obtain ⟨st, di, pl, cmd, dat, rc, cb, ci⟩ := ctx
  simp only [MAX_DATA_LENGTH] at *
  subst hst
  have hj := join16 hi lo hhi hlo
  simp only [feed, data_comm_parse_byte, hdr_hi, hdr_lo, write, hc, List.length_set, hj,
    MAX_DATA_LENGTH, if_true, Option.some_bind, Nat.reduceAdd, Nat.reduceMod, Nat.reduceLT,
    Nat.zero_add]
  have hn : ¬ (hi * 256 + lo = 0 ∨ hi * 256 + lo > 257) := by omega
  rw [if_neg hn]
  by_cases h : hi * 256 + lo = 1
  · simp [h, hc]
  · simp [h, hc]

/-- The checksum and trailer bytes of a frame whose checksum matches: the frame is
handed to the handler on the last byte. -/
theorem feed_tail_ok (ctx : ParseContext) (k1 k2 : Nat)
    (hst : ctx.state = .STATE_WAIT_CRC1)
    (hk : ((k1 <<< 8) % 65536 ||| k2) % 65536 = crc16_ccitt (ctx.crc_buffer.take ctx.crc_index)) :
    feed ctx [k1, k2, 0x55, 0xAA] =
      some ({ ctx with state := .STATE_WAIT_HEADER1,
                       recv_crc := ((k1 <<< 8) % 65536 ||| k2) % 65536 },
            [none, none, none,
              some { cmd := ctx.cmd, data := ctx.data, len := ctx.data_index }]) := by
  obtain ⟨st, di, pl, cmd, dat, rc, cb, ci⟩ := ctx
  simp only at hst hk
  subst hst
  simp [feed, data_comm_parse_byte, end_hi, end_lo, hk]

/-- The checksum and trailer bytes of a frame whose checksum does not match: nothing
is handed to the handler, and the last trailer byte is taken for a header byte. -/
theorem feed_tail_bad (ctx : ParseContext) (k1 k2 : Nat)
    (hst : ctx.state = .STATE_WAIT_CRC1)
    (hk : ((k1 <<< 8) % 65536 ||| k2) % 65536 ≠ crc16_ccitt (ctx.crc_buffer.take ctx.crc_index)) :
    feed ctx [k1, k2, 0x55, 0xAA] =
      some ({ ctx with state := .STATE_WAIT_HEADER2,
                       recv_crc := ((k1 <<< 8) % 65536 ||| k2) % 65536 },
            [none, none, none, none]) := by
  obtain ⟨st, di, pl, cmd, dat, rc, cb, ci⟩ := ctx
  simp only at hst hk
  subst hst
  simp [feed, data_comm_parse_byte, hdr_hi, hk, Ne.symm hk]

/-- From header search, the header, length, command and payload of a frame bring the
decoder to the checksum with the payload and the checksum span stored. -/
theorem feed_body (ctx : ParseContext) (hi lo c : Nat) (p : List Nat)
    (hst : ctx.state = .STATE_WAIT_HEADER1) (hd : ctx.data.length = MAX_DATA_LENGTH)
    (hc : ctx.crc_buffer.length = MAX_DATA_LENGTH + 3)
    (hhi : hi < 256) (hlo : lo < 256) (hL : hi * 256 + lo = p.length + 1)
    (hp : p.length ≤ MAX_DATA_LENGTH) :
    ∃ ctx1, feed ctx ([0xAA, 0x55, hi, lo, c] ++ p)
        = some (ctx1, List.replicate (5 + p.length) none) ∧
      ctx1.state = .STATE_WAIT_CRC1 ∧ ctx1.cmd = c ∧ ctx1.data_index = p.length ∧
      ctx1.data.take ctx1.data_index = p ∧ ctx1.crc_index = 3 + p.length ∧
      ctx1.crc_buffer.take ctx1.crc_index = hi :: lo :: c :: p ∧
      ctx1.data.length = MAX_DATA_LENGTH ∧ ctx1.crc_buffer.length = MAX_DATA_LENGTH + 3 := by
  have hh := feed_head ctx hi lo c hst hc hhi hlo (by omega) (by omega)
  have hspan : (((ctx.crc_buffer.set 0 hi).set 1 lo).set 2 c).take 3 = [hi, lo, c] := by
    unfold MAX_DATA_LENGTH at hc
    rw [take_set_succ _ 2 c (by simp; omega), take_set_succ _ 1 lo (by simp; omega),
      take_set_succ _ 0 hi (by omega)]
    rfl
  rw [feed_append, hh]
  by_cases hp0 : p = []
  · subst hp0
    simp only [List.length_nil, Nat.zero_add] at hL
    rw [if_pos hL]
    refine ⟨{ state := .STATE_WAIT_CRC1, data_index := 0, pkg_length := hi * 256 + lo, cmd := c,
              data := ctx.data, recv_crc := ctx.recv_crc,
              crc_buffer := ((ctx.crc_buffer.set 0 hi).set 1 lo).set 2 c, crc_index := 3 },
      ?_, rfl, rfl, rfl, rfl, rfl, hspan, hd, ?_⟩
    · simp only [Option.some_bind, feed, List.length_nil, Nat.add_zero]
      rfl
    · simpa using hc
  · have hpos : 0 < p.length := List.length_pos.mpr hp0
    obtain ⟨ctx1, hf, g1, g2, g3, g4, g5, g6, g7, g8⟩ := feed_read p
      { state := .STATE_READ_DATA, data_index := 0, pkg_length := hi * 256 + lo, cmd := c,
        data := ctx.data, recv_crc := ctx.recv_crc,
        crc_buffer := ((ctx.crc_buffer.set 0 hi).set 1 lo).set 2 c, crc_index := 3 }
      rfl hd (by simpa using hc) rfl (by simp only []; omega) (by simp only []; omega) hp0
    refine ⟨ctx1, ?_, g1, g2, ?_, ?_, ?_, ?_, g7, g8⟩
    · rw [if_neg (by omega)]
      simp only [Option.some_bind, hf]
      rw [List.replicate_add]
      rfl
    · simpa using g3
    · simpa using g4
    · simpa using g5
    · rw [g6]; simp only []; rw [hspan]; rfl

theorem trace_shape (n : Nat) (x : Option Packet) :
    List.replicate (5 + n) none ++ [none, none, none, x] = List.replicate (n + 8) none ++ [x] := by
  have h : List.replicate (n + 8) (none : Option Packet)
      = List.replicate (5 + n) none ++ List.replicate 3 none := by
    rw [← List.replicate_add]
    congr 1
    omega
  rw [h]
  simp [List.replicate]

/-- A whole frame fed to a decoder that is searching for a header, whatever the other
fields of its context hold, is handed to the handler on its last byte. -/
theorem feed_frame (ctx : ParseContext) (c : Nat) (p : List Nat)
    (hst : ctx.state = .STATE_WAIT_HEADER1) (hd : ctx.data.length = MAX_DATA_LENGTH)
    (hc : ctx.crc_buffer.length = MAX_DATA_LENGTH + 3) (hp : p.length ≤ MAX_DATA_LENGTH) :
    ∃ ctx1, feed ctx (wire_frame c p)
        = some (ctx1, List.replicate (p.length + 8) none
            ++ [some { cmd := c, data := ctx1.data, len := p.length }]) ∧
      ctx1.state = .STATE_WAIT_HEADER1 ∧ ctx1.data.take p.length = p ∧
      ctx1.data.length = MAX_DATA_LENGTH ∧ ctx1.crc_buffer.length = MAX_DATA_LENGTH + 3 := by
  have hp2 : p.length ≤ 256 := hp
  have hhi : ((p.length + 1) >>> 8) &&& 0xFF < 256 := by rw [and_255]; omega
  have hlo : (p.length + 1) &&& 0xFF < 256 := by rw [and_255]; omega
  have hL : (((p.length + 1) >>> 8) &&& 0xFF) * 256 + ((p.length + 1) &&& 0xFF) = p.length + 1 := by
    rw [and_255, and_255, shr_8]; omega
  obtain ⟨ctx1, hf, g1, g2, g3, g4, g5, g6, g7, g8⟩ :=
    feed_body ctx _ _ c p hst hd hc hhi hlo hL hp
  obtain ⟨K, hK⟩ : ∃ K, K =
      crc16_ccitt ([((p.length + 1) >>> 8) &&& 0xFF, (p.length + 1) &&& 0xFF, c] ++ p) := ⟨_, rfl⟩
  have ht := feed_tail_ok ctx1 ((K >>> 8) &&& 0xFF) (K &&& 0xFF) g1
    (by rw [g6, join16_split _ (by rw [hK]; exact crc16_ccitt_lt _), hK]; rfl)
  refine ⟨{ ctx1 with state := .STATE_WAIT_HEADER1,
                      recv_crc := ((((K >>> 8) &&& 0xFF) <<< 8) % 65536 ||| (K &&& 0xFF)) % 65536 },
    ?_, rfl, ?_, g7, g8⟩
  · unfold wire_frame
    rw [feed_append, hf, ← hK]
    simp only [Option.some_bind, ht, g2, g3]
    congr 2
    exact trace_shape p.length _
  · simpa [g3] using g4

theorem init_state : data_comm_init.state = .STATE_WAIT_HEADER1 := rfl

theorem init_data_length : data_comm_init.data.length = MAX_DATA_LENGTH := by
  simp [data_comm_init]

theorem init_crc_length : data_comm_init.crc_buffer.length = MAX_DATA_LENGTH + 3 := by
  simp [data_comm_init]

/-- Bytes that are not the first header byte leave a decoder in header search as it is. -/
theorem feed_noise (ctx : ParseContext) (noise : List Nat)
    (hst : ctx.state = .STATE_WAIT_HEADER1) (hn : ∀ b ∈ noise, b ≠ 0xAA) :
    feed ctx noise = some (ctx, List.replicate noise.length none) := by
  induction noise with
  | nil => rfl
  | cons b rest ih =>
    have hb : b ≠ 0xAA := hn b (List.mem_cons_self _ _)
    have hstep : data_comm_parse_byte ctx b = some (ctx, none) := by
      simp [data_comm_parse_byte, hst, hdr_hi, hb]
    simp only [feed, hstep, Option.some_bind,
      ih (fun x hx => hn x (List.mem_cons_of_mem _ hx))]
    rfl

theorem wire_frame_length (c : Nat) (p : List Nat) : (wire_frame c p).length = p.length + 9 := by
  simp [wire_frame]

/-- The frame of the specification written with quotients and remainders. -/
theorem wire_frame_eq (c : Nat) (p : List Nat) (hp : p.length ≤ MAX_DATA_LENGTH) :
    wire_frame c p =
      [0xAA, 0x55, (p.length + 1) / 256, (p.length + 1) % 256, c] ++ p ++
        [crc16_ccitt ([(p.length + 1) / 256, (p.length + 1) % 256, c] ++ p) / 256,
          crc16_ccitt ([(p.length + 1) / 256, (p.length + 1) % 256, c] ++ p) % 256,
          0x55, 0xAA] := by
  have hp2 : p.length ≤ 256 := hp
  have h1 : ((p.length + 1) >>> 8) &&& 0xFF = (p.length + 1) / 256 := by
    rw [and_255, shr_8]; omega
  have h2 : (p.length + 1) &&& 0xFF = (p.length + 1) % 256 := and_255 _
  have h3 : ∀ K, K < 65536 → (K >>> 8) &&& 0xFF = K / 256 := by
    intro K hK; rw [and_255, shr_8]; omega
  unfold wire_frame
  rw [h1, h2, h3 _ (crc16_ccitt_lt _), and_255]

/-! ## The invariant is kept -/

theorem suffix_snoc (l s : List Nat) (b : Nat) (h : l <:+ s) : l ++ [b] <:+ s ++ [b] := by
  obtain ⟨t, rfl⟩ := h
  exact ⟨t, by simp⟩

theorem inv_step_header1 (ctx : ParseContext) (s : List Nat) (b : Nat)
    (hst : ctx.state = .STATE_WAIT_HEADER1) (h : Inv ctx s) : StepOK ctx s b := by
  obtain ⟨st, di, pl, cmd, dat, rc, cb, ci⟩ := ctx
  simp only at hst
  subst hst
  obtain ⟨hd, hc, -⟩ := h
  unfold StepOK
  simp only [data_comm_parse_byte, hdr_hi]
  by_cases hb : b = 0xAA
  · subst hb
    simp only [if_true]
    exact ⟨⟨hd, hc, List.suffix_append s [0xAA]⟩, fun _ hp => by simp at hp⟩
  · simp only [if_neg hb]
    exact ⟨⟨hd, hc, trivial⟩, fun _ hp => by simp at hp⟩

theorem inv_step_header2 (ctx : ParseContext) (s : List Nat) (b : Nat)
    (hst : ctx.state = .STATE_WAIT_HEADER2) (h : Inv ctx s) : StepOK ctx s b := by
  obtain ⟨st, di, pl, cmd, dat, rc, cb, ci⟩ := ctx
  simp only at hst
  subst hst
  obtain ⟨hd, hc, hs⟩ := h
  unfold StepOK
  simp only [data_comm_parse_byte, hdr_lo]
  by_cases hb : b = 0x55
  · subst hb
    simp only [if_true]
    exact ⟨⟨hd, hc, suffix_snoc _ _ _ hs, rfl⟩, fun _ hp => by simp at hp⟩
  · simp only [if_neg hb]
    exact ⟨⟨hd, hc, trivial⟩, fun _ hp => by simp at hp⟩

theorem inv_step_length_high (ctx : ParseContext) (s : List Nat) (b : Nat) (hb : b < 256)
    (hst : ctx.state = .STATE_WAIT_LENGTH_HIGH) (h : Inv ctx s) : StepOK ctx s b := by
  obtain ⟨st, di, pl, cmd, dat, rc, cb, ci⟩ := ctx
  simp only at hst
  subst hst
  obtain ⟨hd, hc, hs, hci⟩ := h
  simp only [MAX_DATA_LENGTH] at hd hc hci
  subst hci
  unfold StepOK
  have hw : write cb 0 b = some (cb.set 0 b) := by
    unfold write; rw [if_pos (by omega)]
  have hsh : (b <<< 8) % 65536 = b * 256 := by rw [shl_8]; omega
  simp only [data_comm_parse_byte, hw, hsh, Option.some_bind]
  refine ⟨⟨hd, by simpa using hc, b, hb, suffix_snoc _ _ _ hs, rfl, ?_, rfl⟩,
    fun _ hp => by simp at hp⟩
  exact take_set_succ cb 0 b (by omega)

theorem inv_step_length_low (ctx : ParseContext) (s : List Nat) (b : Nat) (hb : b < 256)
    (hst : ctx.state = .STATE_WAIT_LENGTH_LOW) (h : Inv ctx s) : StepOK ctx s b := by
  obtain ⟨st, di, pl, cmd, dat, rc, cb, ci⟩ := ctx
  simp only at hst
  subst hst
  obtain ⟨hd, hc, hi, hhi, hs, hci, htk, hpl⟩ := h
  simp only [MAX_DATA_LENGTH] at hd hc hci htk hpl
  subst hci hpl
  unfold StepOK
  have hw : write cb 1 b = some (cb.set 1 b) := by
    unfold write; rw [if_pos (by omega)]
  have hor : (hi * 256 ||| b) % 65536 = hi * 256 + b := by
    rw [or_low hi b hb]; omega
  simp only [data_comm_parse_byte, hw, hor, Option.some_bind, MAX_DATA_LENGTH]
  by_cases hbad : hi * 256 + b = 0 ∨ hi * 256 + b > 256 + 1
  · rw [if_pos hbad]
    exact ⟨⟨hd, by simpa using hc, trivial⟩, fun _ hp => by simp at hp⟩
  · rw [if_neg hbad]
    refine ⟨⟨hd, by simpa using hc, hi, b, hhi, hb, suffix_snoc _ _ _ hs, rfl, ?_, rfl,
      by simp only []; omega, by simp only [MAX_DATA_LENGTH]; omega⟩, fun _ hp => by simp at hp⟩
    have := take_set_succ cb 1 b (by omega)
    rw [htk] at this
    exact this

theorem inv_step_cmd (ctx : ParseContext) (s : List Nat) (b : Nat)
    (hst : ctx.state = .STATE_WAIT_CMD) (h : Inv ctx s) : StepOK ctx s b := by
  obtain ⟨st, di, pl, cmd, dat, rc, cb, ci⟩ := ctx
  simp only at hst
  subst hst
  obtain ⟨hd, hc, hi, lo, hhi, hlo, hs, hci, htk, hpl, hp1, hp2⟩ := h
  simp only [MAX_DATA_LENGTH] at hd hc hci htk hpl hp1 hp2
  subst hci hpl
  unfold StepOK
  have hw : write cb 2 b = some (cb.set 2 b) := by
    unfold write; rw [if_pos (by omega)]
  have htk3 : (cb.set 2 b).take 3 = [hi, lo, b] := by
    have := take_set_succ cb 2 b (by omega)
    rw [htk] at this
    exact this
  simp only [data_comm_parse_byte, hw, Option.some_bind]
  by_cases hone : hi * 256 + lo = 1
  · rw [if_pos hone]
    exact ⟨⟨hd, by simpa using hc, hi, lo, [], ⟨hhi, hlo, suffix_snoc _ _ _ hs, rfl, htk3, rfl,
      rfl, rfl, hp2⟩, by simp only [List.length_nil]; omega⟩, fun _ hp => by simp at hp⟩
  · rw [if_neg hone]
    exact ⟨⟨hd, by simpa using hc, hi, lo, [], ⟨hhi, hlo, suffix_snoc _ _ _ hs, rfl, htk3, rfl,
      rfl, rfl, hp2⟩, by simp only [List.length_nil]; omega⟩, fun _ hp => by simp at hp⟩

theorem inv_step_read_data (ctx : ParseContext) (s : List Nat) (b : Nat)
    (hst : ctx.state = .STATE_READ_DATA) (h : Inv ctx s) : StepOK ctx s b := by
  obtain ⟨st, di, pl, cmd, dat, rc, cb, ci⟩ := ctx
  simp only at hst
  subst hst
  obtain ⟨hd, hc, hi, lo, d, ⟨hhi, hlo, hs, hci, htk, hdi, hdt, hpl, hp2⟩, hlt⟩ := h
  simp only [MAX_DATA_LENGTH] at hd hc hci htk hdi hdt hpl hp2 hlt
  subst hci hdi
  unfold StepOK
  have hw1 : write dat d.length b = some (dat.set d.length b) := by
    unfold write; rw [if_pos (by omega)]
  have hw2 : write cb (d.length + 3) b = some (cb.set (d.length + 3) b) := by
    unfold write; rw [if_pos (by omega)]
  have hm1 : (d.length + 1) % 65536 = d.length + 1 := Nat.mod_eq_of_lt (by omega)
  have hm2 : (d.length + 3 + 1) % 65536 = d.length + 3 + 1 := Nat.mod_eq_of_lt (by omega)
  have ht1 : (dat.set d.length b).take ((d ++ [b]).length) = d ++ [b] := by
    have := take_set_succ dat d.length b (by omega)
    rw [hdt] at this
    simpa using this
  have ht2 : (cb.set (d.length + 3) b).take ((d ++ [b]).length + 3)
      = hi :: lo :: cmd :: (d ++ [b]) := by
    have := take_set_succ cb (d.length + 3) b (by omega)
    rw [htk] at this
    simpa [Nat.add_right_comm] using this
  have hsuf : ([0xAA, 0x55, hi, lo, cmd] ++ (d ++ [b]) ++ []) <:+ s ++ [b] := by
    have := suffix_snoc _ _ b hs
    simpa using this
  have hl : (d ++ [b]).length = d.length + 1 := by simp
  have hci2 : d.length + 3 + 1 = (d ++ [b]).length + 3 := by omega
  simp only [data_comm_parse_byte, hw1, hw2, hm1, hm2, Option.some_bind]
  by_cases hfull : ((d.length + 1 : Nat) : Int) ≥ (pl : Int) - 1
  · rw [if_pos hfull]
    exact ⟨⟨by simpa using hd, by simpa using hc, hi, lo, d ++ [b],
      ⟨hhi, hlo, hsuf, hci2, ht2, hl.symm, ht1, hpl, hp2⟩,
      by simp only [hl]; omega⟩, fun _ hp => by simp at hp⟩
  · rw [if_neg hfull]
    exact ⟨⟨by simpa using hd, by simpa using hc, hi, lo, d ++ [b],
      ⟨hhi, hlo, hsuf, hci2, ht2, hl.symm, ht1, hpl, hp2⟩,
      by simp only [hl]; omega⟩, fun _ hp => by simp at hp⟩

theorem inv_step_crc1 (ctx : ParseContext) (s : List Nat) (b : Nat) (hb : b < 256)
    (hst : ctx.state = .STATE_WAIT_CRC1) (h : Inv ctx s) : StepOK ctx s b := by
  obtain ⟨st, di, pl, cmd, dat, rc, cb, ci⟩ := ctx
  simp only at hst
  subst hst
  obtain ⟨hd, hc, hi, lo, d, ⟨hhi, hlo, hs, hci, htk, hdi, hdt, hpl, hp2⟩, hlt⟩ := h
  unfold StepOK
  have hsh : (b <<< 8) % 65536 = b * 256 := by rw [shl_8]; omega
  have hsuf : ([0xAA, 0x55, hi, lo, cmd] ++ d ++ [b]) <:+ s ++ [b] := by
    have := suffix_snoc _ _ b hs
    simpa using this
  simp only [data_comm_parse_byte, hsh]
  exact ⟨⟨hd, hc, hi, lo, d, b, ⟨hhi, hlo, hsuf, hci, htk, hdi, hdt, hpl, hp2⟩,
    hlt, hb, rfl⟩, fun _ hp => by simp at hp⟩

theorem inv_step_crc2 (ctx : ParseContext) (s : List Nat) (b : Nat) (hb : b < 256)
    (hst : ctx.state = .STATE_WAIT_CRC2) (h : Inv ctx s) : StepOK ctx s b := by
  obtain ⟨st, di, pl, cmd, dat, rc, cb, ci⟩ := ctx
  simp only at hst
  subst hst
  obtain ⟨hd, hc, hi, lo, d, k1, ⟨hhi, hlo, hs, hci, htk, hdi, hdt, hpl, hp2⟩, hlt, hk1, hrc⟩ := h
  simp only at hci htk hrc
  subst hci hrc
  unfold StepOK
  have hor : (k1 * 256 ||| b) % 65536 = k1 * 256 + b := by
    rw [or_low k1 b hb]; omega
  have hsuf : ([0xAA, 0x55, hi, lo, cmd] ++ d ++ [k1, b]) <:+ s ++ [b] := by
    have := suffix_snoc _ _ b hs
    simpa using this
  simp only [data_comm_parse_byte, hor, htk]
  by_cases hne : crc16_ccitt (hi :: lo :: cmd :: d) ≠ k1 * 256 + b
  · rw [if_pos hne]
    exact ⟨⟨hd, hc, trivial⟩, fun _ hp => by simp at hp⟩
  · rw [if_neg hne]
    exact ⟨⟨hd, hc, hi, lo, d, k1, b, ⟨hhi, hlo, hsuf, rfl, htk, hdi, hdt, hpl, hp2⟩, hlt, hk1,
      hb, (not_not.mp hne).symm⟩, fun _ hp => by simp at hp⟩

theorem inv_step_end1 (ctx : ParseContext) (s : List Nat) (b : Nat)
    (hst : ctx.state = .STATE_WAIT_END1) (h : Inv ctx s) : StepOK ctx s b := by
  obtain ⟨st, di, pl, cmd, dat, rc, cb, ci⟩ := ctx
  simp only at hst
  subst hst
  obtain ⟨hd, hc, hi, lo, d, k1, k2, ⟨hhi, hlo, hs, hci, htk, hdi, hdt, hpl, hp2⟩, hlt, hk1, hk2,
    hk⟩ := h
  unfold StepOK
  simp only [data_comm_parse_byte, end_hi]
  by_cases hb : b = 0x55
  · subst hb
    have hsuf : ([0xAA, 0x55, hi, lo, cmd] ++ d ++ [k1, k2, 0x55]) <:+ s ++ [0x55] := by
      have := suffix_snoc _ _ 0x55 hs
      simpa using this
    simp only [if_true]
    exact ⟨⟨hd, hc, hi, lo, d, k1, k2, ⟨hhi, hlo, hsuf, hci, htk, hdi, hdt, hpl, hp2⟩, hlt, hk1,
      hk2, hk⟩, fun _ hp => by simp at hp⟩
  · rw [if_neg hb]
    exact ⟨⟨hd, hc, trivial⟩, fun _ hp => by simp at hp⟩

/-- The frame of the specification from the bytes the decoder has read. -/
theorem wire_frame_of (hi lo k1 k2 cmd : Nat) (d : List Nat) (hhi : hi < 256) (hlo : lo < 256)
    (hk1 : k1 < 256) (hk2 : k2 < 256) (hL : d.length + 1 = hi * 256 + lo)
    (hk : k1 * 256 + k2 = crc16_ccitt (hi :: lo :: cmd :: d)) :
    wire_frame cmd d = [0xAA, 0x55, hi, lo, cmd] ++ d ++ [k1, k2, 0x55, 0xAA] := by
  have h1 : ((d.length + 1) >>> 8) &&& 0xFF = hi := by rw [and_255, shr_8]; omega
  have h2 : (d.length + 1) &&& 0xFF = lo := by rw [and_255]; omega
  unfold wire_frame
  rw [h1, h2]
  have e : [hi, lo, cmd] ++ d = hi :: lo :: cmd :: d := rfl
  rw [e, ← hk]
  have h3 : ((k1 * 256 + k2) >>> 8) &&& 0xFF = k1 := by rw [and_255, shr_8]; omega
  have h4 : (k1 * 256 + k2) &&& 0xFF = k2 := by rw [and_255]; omega
  rw [h3, h4]

theorem inv_step_end2 (ctx : ParseContext) (s : List Nat) (b : Nat)
    (hst : ctx.state = .STATE_WAIT_END2) (h : Inv ctx s) : StepOK ctx s b := by
  obtain ⟨st, di, pl, cmd, dat, rc, cb, ci⟩ := ctx
  simp only at hst
  subst hst
  obtain ⟨hd, hc, hi, lo, d, k1, k2, ⟨hhi, hlo, hs, hci, htk, hdi, hdt, hpl, hp2⟩, hlt, hk1, hk2,
    hk⟩ := h
  simp only [MAX_DATA_LENGTH] at hdi hdt hpl hp2 hlt hk hs
  subst hdi hpl
  unfold StepOK
  simp only [data_comm_parse_byte, end_lo]
  by_cases hb : b = 0xAA
  · subst hb
    simp only [if_true]
    refine ⟨⟨hd, hc, trivial⟩, ?_⟩
    intro pkt hp
    simp only [Option.some.injEq] at hp
    subst hp
    have hw := wire_frame_of hi lo k1 k2 cmd d hhi hlo hk1 hk2 hlt hk
    refine ⟨by simp only [MAX_DATA_LENGTH]; omega, ?_, ?_⟩
    · simp only [Packet.payload, hdt]
    · simp only [Packet.payload, hdt, hw]
      have := suffix_snoc _ _ 0xAA hs
      simpa using this
  · rw [if_neg hb]
    exact ⟨⟨hd, hc, trivial⟩, fun _ hp => by simp at hp⟩

/-- Every call of `data_comm_parse_byte` on a byte keeps the invariant. -/
theorem inv_step (ctx : ParseContext) (s : List Nat) (b : Nat) (hb : b < 256) (h : Inv ctx s) :
    StepOK ctx s b := by
  cases hst : ctx.state with
  | STATE_WAIT_HEADER1 => exact inv_step_header1 ctx s b hst h
  | STATE_WAIT_HEADER2 => exact inv_step_header2 ctx s b hst h
  | STATE_WAIT_LENGTH_HIGH => exact inv_step_length_high ctx s b hb hst h
  | STATE_WAIT_LENGTH_LOW => exact inv_step_length_low ctx s b hb hst h
  | STATE_WAIT_CMD => exact inv_step_cmd ctx s b hst h
  | STATE_READ_DATA => exact inv_step_read_data ctx s b hst h
  | STATE_WAIT_CRC1 => exact inv_step_crc1 ctx s b hb hst h
  | STATE_WAIT_CRC2 => exact inv_step_crc2 ctx s b hb hst h
  | STATE_WAIT_END1 => exact inv_step_end1 ctx s b hst h
  | STATE_WAIT_END2 => exact inv_step_end2 ctx s b hst h

theorem inv_init : Inv data_comm_init [] :=
  ⟨init_data_length, init_crc_length, trivial⟩

/-- The decoder is defined on every byte stream, keeps the invariant, and each handler
call it makes is backed by the bytes read up to that call. -/
theorem inv_feed (s : List Nat) : ∀ (s0 : List Nat) (ctx : ParseContext), Inv ctx s0 →
    (∀ b ∈ s, b < 256) →
    ∃ ctx1 tr, feed ctx s = some (ctx1, tr) ∧ Inv ctx1 (s0 ++ s) ∧ tr.length = s.length ∧
      ∀ i pkt, tr[i]? = some (some pkt) → Delivered pkt (s0 ++ s.take (i + 1)) := by
  induction s with
  | nil =>
    intro s0 ctx h _
    exact ⟨ctx, [], rfl, by simpa using h, rfl, fun i pkt hp => by simp at hp⟩
  | cons b rest ih =>
    intro s0 ctx h hs
    have hstep := inv_step ctx s0 b (hs b (List.mem_cons_self _ _)) h
    unfold StepOK at hstep
    cases hr : data_comm_parse_byte ctx b with
    | none => rw [hr] at hstep; exact absurd hstep id
    | some r =>
      rw [hr] at hstep
      obtain ⟨hinv, hdel⟩ := hstep
      obtain ⟨ctx1, tr, hf, hinv1, hlen, hall⟩ :=
        ih (s0 ++ [b]) r.1 hinv (fun x hx => hs x (List.mem_cons_of_mem _ hx))
      refine ⟨ctx1, r.2 :: tr, ?_, by simpa using hinv1, by simp [hlen], ?_⟩
      · simp only [feed, hr, Option.some_bind, hf]
      · intro i pkt hp
        cases i with
        | zero =>
          simp only [List.getElem?_cons_zero, Option.some.injEq] at hp
          simpa using hdel pkt hp
        | succ j =>
          simp only [List.getElem?_cons_succ] at hp
          have := hall j pkt hp
          simpa using this

/-- A handler call backed by the first `i + 1` bytes of the stream, in the words of
the encoder: the `len + 9` bytes ending at position `i` are what `data_comm_send`
emits for the command and payload handed over. -/
theorem delivered_send (buf s : List Nat) (i : Nat) (pkt : Packet)
    (hbuf : buf.length = MAX_DATA_LENGTH + 10) (hi : i < s.length)
    (h : Delivered pkt (s.take (i + 1))) :
    pkt.len ≤ 256 ∧ pkt.len + 9 ≤ i + 1 ∧
    ∃ r, data_comm_send buf pkt.cmd (some (pkt.data.take pkt.len)) pkt.len = some r ∧
      r.transmitted = some ((s.take (i + 1)).drop (i + 1 - (pkt.len + 9))) := by
  obtain ⟨hlen, hpl, hsuf⟩ := h
  have htl : (s.take (i + 1)).length = i + 1 := by
    rw [List.length_take]; omega
  have hle := hsuf.length_le
  rw [wire_frame_length, hpl, htl] at hle
  obtain ⟨rest, hs⟩ := send_ok buf pkt.cmd pkt.payload hbuf (by rw [hpl]; exact hlen)
  rw [hpl] at hs
  refine ⟨hlen, hle, { buffer := wire_frame pkt.cmd pkt.payload ++ rest,
                       transmitted := some (wire_frame pkt.cmd pkt.payload),
                       ret := pkt.len + 9 }, hs, ?_⟩
  have hd := List.suffix_iff_eq_drop.mp hsuf
  rw [wire_frame_length, hpl, htl] at hd
  simp only [← hd]

/-! ## Flipped bits -/

theorem flip_bit_length (l : List Nat) (j k : Nat) : (flip_bit l j k).length = l.length := by
  induction l generalizing j with
  | nil => rfl
  | cons b rest ih =>
    cases j with
    | zero => rfl
    | succ j => simp [flip_bit, ih]

theorem flip_bit_append_left (xs ys : List Nat) (j k : Nat) (h : j < xs.length) :
    flip_bit (xs ++ ys) j k = flip_bit xs j k ++ ys := by
  induction xs generalizing j with
  | nil => simp at h
  | cons b rest ih =>
    cases j with
    | zero => rfl
    | succ j =>
      simp only [List.cons_append, flip_bit, List.cons.injEq, true_and]
      exact ih j (by simpa using h)

theorem flip_bit_split (l : List Nat) (j k : Nat) (h : j < l.length) :
    ∃ xs b ys, l = xs ++ b :: ys ∧ xs.length = j ∧
      flip_bit l j k = xs ++ (b ^^^ (1 <<< k)) :: ys := by
  induction l generalizing j with
  | nil => simp at h
  | cons b rest ih =>
    cases j with
    | zero => exact ⟨[], b, rest, rfl, rfl, rfl⟩
    | succ j =>
      obtain ⟨xs, x, ys, h1, h2, h3⟩ := ih j (by simpa using h)
      exact ⟨b :: xs, x, ys, by rw [h1]; rfl, by simp [h2], by simp [flip_bit, h3]⟩

theorem flip_ne (b k : Nat) : b ^^^ (1 <<< k) ≠ b := by
  intro h
  have h0 : b ^^^ (1 <<< k) = b ^^^ 0 := by rw [h, Nat.xor_zero]
  have h1 := Nat.xor_right_injective h0
  rw [Nat.shiftLeft_eq, Nat.one_mul] at h1
  exact absurd h1 (by positivity)

theorem flip_lt (b k : Nat) (hb : b < 256) (hk : k < 8) : b ^^^ (1 <<< k) < 256 := by
  have h1 : (1 <<< k) < 2 ^ 8 := by
    rw [Nat.shiftLeft_eq, Nat.one_mul]
    exact Nat.pow_lt_pow_right (by norm_num) hk
  exact Nat.xor_lt_two_pow (show b < 2 ^ 8 by simpa using hb) h1

theorem flip_bit_lt (l : List Nat) (j k : Nat) (hk : k < 8) (hl : ∀ b ∈ l, b < 256) :
    ∀ b ∈ flip_bit l j k, b < 256 := by
  induction l generalizing j with
  | nil => intro b hb; simp [flip_bit] at hb
  | cons x rest ih =>
    cases j with
    | zero =>
      intro b hb
      simp only [flip_bit, List.mem_cons] at hb
      rcases hb with rfl | hb
      · exact flip_lt x k (hl x (List.mem_cons_self _ _)) hk
      · exact hl b (List.mem_cons_of_mem _ hb)
    | succ j =>
      intro b hb
      simp only [flip_bit, List.mem_cons] at hb
      rcases hb with rfl | hb
      · exact hl b (List.mem_cons_self _ _)
      · exact ih j (fun y hy => hl y (List.mem_cons_of_mem _ hy)) b hb

theorem flip_bit_getElem (l : List Nat) (j k : Nat) :
    (flip_bit l j k)[j]? = l[j]?.map (· ^^^ (1 <<< k)) := by
  induction l generalizing j with
  | nil => simp [flip_bit]
  | cons x rest ih =>
    cases j with
    | zero => simp [flip_bit]
    | succ j => simp [flip_bit, ih]

theorem wire_frame_lt (c : Nat) (p : List Nat) (hc : c < 256) (hp : ∀ b ∈ p, b < 256) :
    ∀ b ∈ wire_frame c p, b < 256 := by
  intro b hb
  have h255 : ∀ x : Nat, x &&& 0xFF < 256 := by
    intro x; rw [and_255]; exact Nat.mod_lt _ (by norm_num)
  simp only [wire_frame, List.mem_append, List.mem_cons, List.mem_nil_iff,
    List.mem_singleton, or_false] at hb
  rcases hb with (((rfl | rfl | rfl | rfl | rfl) | hb) | (rfl | rfl | rfl | rfl))
  · norm_num
  · norm_num
  · exact h255 _
  · exact h255 _
  · exact hc
  · exact hp b hb
  · exact h255 _
  · exact h255 _
  · norm_num
  · norm_num

/-- A frame with one bit of its command or payload flipped: the header and length
bytes are those of the frame, the command and payload have the length of the
original, and their checksum is not the one the frame carries. -/
theorem flip_frame (c : Nat) (p : List Nat) (j k : Nat) (hc : c < 256)
    (hp : ∀ b ∈ p, b < 256) (hk : k < 8) (hj1 : 4 ≤ j) (hj2 : j ≤ 4 + p.length) :
    ∃ c1 p1, p1.length = p.length ∧
      flip_bit (wire_frame c p) j k =
        [0xAA, 0x55, ((p.length + 1) >>> 8) &&& 0xFF, (p.length + 1) &&& 0xFF, c1] ++ p1 ++
          [(crc16_ccitt ([((p.length + 1) >>> 8) &&& 0xFF, (p.length + 1) &&& 0xFF, c] ++ p)
              >>> 8) &&& 0xFF,
            crc16_ccitt ([((p.length + 1) >>> 8) &&& 0xFF, (p.length + 1) &&& 0xFF, c] ++ p)
              &&& 0xFF, 0x55, 0xAA] ∧
      crc16_ccitt ((((p.length + 1) >>> 8) &&& 0xFF) :: ((p.length + 1) &&& 0xFF) :: c1 :: p1) ≠
        crc16_ccitt ([((p.length + 1) >>> 8) &&& 0xFF, (p.length + 1) &&& 0xFF, c] ++ p) := by
  obtain ⟨hi, hhi⟩ : ∃ hi, hi = ((p.length + 1) >>> 8) &&& 0xFF := ⟨_, rfl⟩
  obtain ⟨lo, hlo⟩ : ∃ lo, lo = (p.length + 1) &&& 0xFF := ⟨_, rfl⟩
  obtain ⟨tl, htl⟩ : ∃ tl, tl =
      [(crc16_ccitt ([hi, lo, c] ++ p) >>> 8) &&& 0xFF, crc16_ccitt ([hi, lo, c] ++ p) &&& 0xFF,
        0x55, 0xAA] := ⟨_, rfl⟩
  have hw : wire_frame c p = 0xAA :: 0x55 :: hi :: lo :: ((c :: p) ++ tl) := by
    unfold wire_frame
    rw [← hhi, ← hlo, htl]
    rfl
  obtain ⟨m, rfl⟩ : ∃ m, j = m + 4 := ⟨j - 4, by omega⟩
  have hm : m < (c :: p).length := by simp; omega
  obtain ⟨xs, b, ys, h1, h2, h3⟩ := flip_bit_split (c :: p) m k hm
  have hb : b < 256 := by
    have hmem : b ∈ c :: p := by rw [h1]; simp
    rcases List.mem_cons.mp hmem with rfl | hmem
    · exact hc
    · exact hp b hmem
  have hcrc : crc16_ccitt (hi :: lo :: (xs ++ (b ^^^ (1 <<< k)) :: ys)) ≠
      crc16_ccitt (hi :: lo :: (xs ++ b :: ys)) := by
    intro h
    exact flip_ne b k (crc16_ccitt_one_byte (hi :: lo :: xs) ys _ _ (flip_lt b k hb hk) hb h)
  have hf : flip_bit (wire_frame c p) (m + 4) k
      = 0xAA :: 0x55 :: hi :: lo :: (flip_bit (c :: p) m k ++ tl) := by
    rw [hw]
    simp only [flip_bit, List.cons.injEq, true_and]
    exact flip_bit_append_left _ _ _ _ hm
  rw [← hhi, ← hlo, ← htl, hf, h3]
  have hlen : (xs ++ (b ^^^ (1 <<< k)) :: ys).length = p.length + 1 := by
    have := congrArg List.length h1
    simp at this ⊢
    omega
  cases xs with
  | nil =>
    refine ⟨b ^^^ (1 <<< k), ys, by simpa using hlen, rfl, ?_⟩
    have e : [hi, lo, c] ++ p = hi :: lo :: ([] ++ b :: ys) := by rw [← h1]; rfl
    rw [e]
    exact hcrc
  | cons x xs =>
    refine ⟨x, xs ++ (b ^^^ (1 <<< k)) :: ys, by simpa using hlen, rfl, ?_⟩
    have e : [hi, lo, c] ++ p = hi :: lo :: ((x :: xs) ++ b :: ys) := by rw [← h1]; rfl
    rw [e]
    exact hcrc

/-- A frame whose command and payload do not match the checksum it carries, fed to a
decoder in header search: no handler call, and the decoder is left waiting for the
second header byte. -/
theorem feed_corrupt (ctx : ParseContext) (c : Nat) (p : List Nat) (K : Nat)
    (hst : ctx.state = .STATE_WAIT_HEADER1) (hd : ctx.data.length = MAX_DATA_LENGTH)
    (hc : ctx.crc_buffer.length = MAX_DATA_LENGTH + 3) (hp : p.length ≤ MAX_DATA_LENGTH)
    (hK : K < 65536)
    (hne : crc16_ccitt ((((p.length + 1) >>> 8) &&& 0xFF) :: ((p.length + 1) &&& 0xFF) :: c :: p)
      ≠ K) :
    ∃ ctx1, feed ctx ([0xAA, 0x55, ((p.length + 1) >>> 8) &&& 0xFF, (p.length + 1) &&& 0xFF, c]
          ++ p ++ [(K >>> 8) &&& 0xFF, K &&& 0xFF, 0x55, 0xAA])
        = some (ctx1, List.replicate (p.length + 9) none) ∧
      ctx1.state = .STATE_WAIT_HEADER2 ∧ ctx1.data.length = MAX_DATA_LENGTH ∧
      ctx1.crc_buffer.length = MAX_DATA_LENGTH + 3 := by
  have hp2 : p.length ≤ 256 := hp
  have hhi : ((p.length + 1) >>> 8) &&& 0xFF < 256 := by rw [and_255]; omega
  have hlo : (p.length + 1) &&& 0xFF < 256 := by rw [and_255]; omega
  have hL : (((p.length + 1) >>> 8) &&& 0xFF) * 256 + ((p.length + 1) &&& 0xFF) = p.length + 1 := by
    rw [and_255, and_255, shr_8]; omega
  obtain ⟨ctx1, hf, g1, g2, g3, g4, g5, g6, g7, g8⟩ :=
    feed_body ctx _ _ c p hst hd hc hhi hlo hL hp
  have ht := feed_tail_bad ctx1 ((K >>> 8) &&& 0xFF) (K &&& 0xFF) g1
    (by rw [g6, join16_split _ hK]; exact Ne.symm hne)
  refine ⟨{ ctx1 with state := .STATE_WAIT_HEADER2,
                      recv_crc := ((((K >>> 8) &&& 0xFF) <<< 8) % 65536 ||| (K &&& 0xFF)) % 65536 },
    ?_, rfl, g7, g8⟩
  rw [feed_append, hf]
  simp only [Option.some_bind, ht]
  congr 2
  rw [show p.length + 9 = (5 + p.length) + 4 by omega, List.replicate_add (5 + p.length) 4]
  rfl

theorem wire_frame_length_bytes (c c2 : Nat) (p p2 : List Nat) (h : p2.length = p.length)
    (j : Nat) (hj : j = 2 ∨ j = 3) : (wire_frame c2 p2)[j]? = (wire_frame c p)[j]? := by
  rcases hj with rfl | rfl <;> simp [wire_frame, h]

/-- A handler call made while a frame with a flipped bit in its length bytes is fed
never carries a payload as long as the payload of the frame. -/
theorem flip_length_short (c : Nat) (p : List Nat) (j k i : Nat) (pkt : Packet)
    (hj : j = 2 ∨ j = 3)
    (h : Delivered pkt ((flip_bit (wire_frame c p) j k).take (i + 1))) :
    pkt.len < p.length := by
  obtain ⟨_, hpl, hsuf⟩ := h
  by_contra hge
  have hfl : (flip_bit (wire_frame c p) j k).length = p.length + 9 := by
    rw [flip_bit_length, wire_frame_length]
  have hle := hsuf.length_le
  have htk : (List.take (i + 1) (flip_bit (wire_frame c p) j k)).length ≤ p.length + 9 := by
    rw [List.length_take, hfl]; omega
  rw [wire_frame_length, hpl] at hle
  have hlen : pkt.payload.length = p.length := by omega
  have hfull : (flip_bit (wire_frame c p) j k).length ≤ i + 1 := by
    rw [List.length_take, hfl] at hle
    omega
  rw [List.take_of_length_le hfull] at hsuf
  have heq := hsuf.eq_of_length (by rw [wire_frame_length, hfl, hlen])
  have h1 := wire_frame_length_bytes c pkt.cmd p pkt.payload hlen j hj
  rw [heq, flip_bit_getElem] at h1
  have hjl : j < (wire_frame c p).length := by
    rw [wire_frame_length]; rcases hj with rfl | rfl <;> omega
  rw [List.getElem?_eq_getElem hjl] at h1
  simp only [Option.map_some', Option.some.injEq] at h1
  exact flip_ne _ _ h1

theorem trace_glue (a b : Nat) (x : Option Packet) :
    List.replicate a none ++ none :: (List.replicate b none ++ [x])
      = List.replicate (a + 1 + b) none ++ [x] := by
  rw [List.replicate_add, List.replicate_add]
  simp [List.replicate]

/-! ## Splitting a run of the decoder -/

theorem feed_length (s : List Nat) : ∀ (ctx ctx1 : ParseContext) (tr : List (Option Packet)),
    feed ctx s = some (ctx1, tr) → tr.length = s.length := by
  induction s with
  | nil =>
    intro ctx ctx1 tr h
    simp only [feed, Option.some.injEq, Prod.mk.injEq] at h
    obtain ⟨_, rfl⟩ := h
    rfl
  | cons b rest ih =>
    intro ctx ctx1 tr h
    simp only [feed] at h
    obtain ⟨r, _, h⟩ := Option.bind_eq_some.mp h
    obtain ⟨t, ht, h⟩ := Option.bind_eq_some.mp h
    simp only [Option.some.injEq, Prod.mk.injEq] at h
    rw [← h.2, List.length_cons, List.length_cons, ih r.1 t.1 t.2 ht]

theorem feed_split (ctx ctx1 : ParseContext) (xs ys : List Nat) (tr : List (Option Packet))
    (h : feed ctx (xs ++ ys) = some (ctx1, tr)) :
    ∃ ctx0 t1 t2, feed ctx xs = some (ctx0, t1) ∧ feed ctx0 ys = some (ctx1, t2) ∧
      tr = t1 ++ t2 ∧ t1.length = xs.length := by
  rw [feed_append] at h
  obtain ⟨t, ht, h⟩ := Option.bind_eq_some.mp h
  obtain ⟨u, hu, h⟩ := Option.bind_eq_some.mp h
  simp only [Option.some.injEq, Prod.mk.injEq] at h
  refine ⟨t.1, t.2, u.2, ht, ?_, h.2.symm, feed_length xs ctx t.1 t.2 ht⟩
  rw [hu, ← h.1]

/-- A frame cut after its first `k` bytes, fed to a decoder in header search: no
handler call on the bytes before the cut, and the bytes after the cut complete the
frame. -/
theorem feed_frame_cut (ctx : ParseContext) (c : Nat) (p : List Nat) (k : Nat)
    (hst : ctx.state = .STATE_WAIT_HEADER1) (hd : ctx.data.length = MAX_DATA_LENGTH)
    (hc : ctx.crc_buffer.length = MAX_DATA_LENGTH + 3) (hp : p.length ≤ MAX_DATA_LENGTH)
    (hk : k < p.length + 9) :
    ∃ ctx1, feed ctx ((wire_frame c p).take k) = some (ctx1, List.replicate k none) ∧
      ∃ ctx2, feed ctx1 ((wire_frame c p).drop k)
          = some (ctx2, List.replicate (p.length + 8 - k) none
              ++ [some { cmd := c, data := ctx2.data, len := p.length }]) ∧
        ctx2.data.take p.length = p := by
  obtain ⟨ctx2, hf, _, hdat, _, _⟩ := feed_frame ctx c p hst hd hc hp
  rw [← List.take_append_drop k (wire_frame c p)] at hf
  obtain ⟨ctx1, t1, t2, h1, h2, htr, hl⟩ := feed_split _ _ _ _ _ hf
  have hl1 : t1.length = k := by
    rw [hl, List.length_take, wire_frame_length]; omega
  have ht1 : t1 = List.replicate k none := by
    have h3 := congrArg (List.take k) htr
    rw [List.take_left' hl1, List.take_append_of_le_length (by simp; omega),
      List.take_replicate] at h3
    rw [← h3]
    congr 1
    omega
  have ht2 : t2 = List.replicate (p.length + 8 - k) none
      ++ [some { cmd := c, data := ctx2.data, len := p.length }] := by
    have h3 := congrArg (List.drop k) htr
    rw [List.drop_left' hl1, List.drop_append_of_le_length (by simp; omega),
      List.drop_replicate] at h3
    exact h3.symm
  refine ⟨ctx1, ?_, ctx2, ?_, hdat⟩
  · rw [h1, ht1]
  · rw [h2, ht2]

/-- From header search, the header and the two length bytes: the length is checked on
the low byte. -/
theorem feed_length_check (ctx : ParseContext) (hi lo : Nat)
    (hst : ctx.state = .STATE_WAIT_HEADER1) (hc : ctx.crc_buffer.length = MAX_DATA_LENGTH + 3)
    (hhi : hi < 256) (hlo : lo < 256) :
    feed ctx [0xAA, 0x55, hi, lo] =
      some ({ state := if hi * 256 + lo = 0 ∨ hi * 256 + lo > MAX_DATA_LENGTH + 1
                then .STATE_WAIT_HEADER1 else .STATE_WAIT_CMD
              data_index := ctx.data_index
              pkg_length := hi * 256 + lo
              cmd := ctx.cmd
              data := ctx.data
              recv_crc := ctx.recv_crc
              crc_buffer := (ctx.crc_buffer.set 0 hi).set 1 lo
              crc_index := 2 }, [none, none, none, none]) := by
  obtain ⟨st, di, pl, cmd, dat, rc, cb, ci⟩ := ctx
  simp only [MAX_DATA_LENGTH] at *
  subst hst
  have hj := join16 hi lo hhi hlo
  simp only [feed, data_comm_parse_byte, hdr_hi, hdr_lo, write, hc, List.length_set, hj,
    MAX_DATA_LENGTH, if_true, Option.some_bind, Nat.reduceAdd, Nat.reduceMod, Nat.reduceLT,
    Nat.zero_add]
  by_cases h : hi * 256 + lo = 0 ∨ hi * 256 + lo > 257
  · rw [if_pos h, if_pos h]
    rfl
  · rw [if_neg h, if_neg h]
    rfl

/-! ## No handler call before a whole frame is read -/

theorem step_distance (ctx : ParseContext) (b : Nat) (r : ParseContext × Option Packet)
    (h : data_comm_parse_byte ctx b = some r) :
    frame_distance ctx.state ≤ frame_distance r.1.state + 1 ∧
      (2 ≤ frame_distance ctx.state → r.2 = none) := by
  obtain ⟨st, di, pl, cmd, dat, rc, cb, ci⟩ := ctx
  obtain ⟨r1, r2⟩ := r
  cases st <;> simp only [data_comm_parse_byte, write] at h
  all_goals try split_ifs at h
  all_goals simp at h
  all_goals try (obtain ⟨rfl, rfl⟩ := h)
  all_goals simp [frame_distance]

/-- A decoder fed fewer bytes than its state is away from a handler call makes no
handler call. -/
theorem feed_quiet (s : List Nat) : ∀ (ctx ctx1 : ParseContext) (tr : List (Option Packet)),
    feed ctx s = some (ctx1, tr) → s.length < frame_distance ctx.state →
    tr = List.replicate s.length none := by
  induction s with
  | nil =>
    intro ctx ctx1 tr h _
    simp only [feed, Option.some.injEq, Prod.mk.injEq] at h
    obtain ⟨_, rfl⟩ := h
    rfl
  | cons b rest ih =>
    intro ctx ctx1 tr h hlt
    simp only [feed] at h
    obtain ⟨r, hr, h⟩ := Option.bind_eq_some.mp h
    obtain ⟨t, ht, h⟩ := Option.bind_eq_some.mp h
    simp only [Option.some.injEq, Prod.mk.injEq] at h
    obtain ⟨hd1, hd2⟩ := step_distance ctx b r hr
    simp only [List.length_cons] at hlt
    rw [← h.2, hd2 (by omega), ih r.1 t.1 t.2 ht (by omega)]
    rfl

/-! ## The checksum of a message followed by its checksum -/

theorem xor_high_byte (s : Nat) : s ^^^ ((s >>> 8) <<< 8) = s % 256 := by
  apply Nat.eq_of_testBit_eq
  intro i
  have h1 := Nat.testBit_mod_two_pow s 8 i
  norm_num at h1
  rw [h1, Nat.testBit_xor, Nat.testBit_shiftLeft, Nat.testBit_shiftRight]
  by_cases hi : i < 8
  · have h2 : ¬ i ≥ 8 := by omega
    simp [hi, h2]
  · have h2 : i ≥ 8 := by omega
    have h3 : 8 + (i - 8) = i := by omega
    simp [hi, h2, h3]

theorem crc16_for_small (n v : Nat) (h : v * 2 ^ n < 65536) : crc16_for n v = v * 2 ^ n := by
  induction n generalizing v with
  | zero => simp [crc16_for]
  | succ n ih =>
    have hv : v * 2 ^ n * 2 < 65536 := by rw [Nat.mul_assoc, ← Nat.pow_succ]; exact h
    have hpos : 0 < 2 ^ n := by positivity
    have hv2 : v < 32768 := by
      by_contra hge
      have : 32768 * 1 ≤ v * 2 ^ n := Nat.mul_le_mul (by omega) hpos
      omega
    show crc16_for n (crc16_shift v) = _
    rw [crc16_shift_low v (by omega) (by omega), ih (2 * v) (by
      rw [Nat.mul_comm 2 v, Nat.mul_assoc, Nat.mul_comm 2 (2 ^ n), ← Nat.mul_assoc]; exact hv)]
    rw [Nat.pow_succ, Nat.mul_comm 2 v, Nat.mul_assoc, Nat.mul_comm 2 (2 ^ n)]

/-- Residue of the checksum: two more bytes, the accumulator big-endian, bring the
accumulator to zero. -/
theorem crc16_while_residue (K : Nat) (hK : K < 65536) :
    crc16_while K [(K >>> 8) &&& 0xFF, K &&& 0xFF] = 0 := by
  have h1 : (K >>> 8) &&& 0xFF = K >>> 8 := by
    rw [and_255, shr_8]; omega
  have h2 : (K ^^^ ((K >>> 8) <<< 8)) % 65536 = K % 256 := by
    rw [xor_high_byte]; omega
  have h3 : crc16_for 8 (K % 256) = K % 256 * 256 := by
    rw [crc16_for_small 8 _ (by norm_num; omega)]
    norm_num
  have h4 : crc16_for 8 0 = 0 := by decide
  simp only [crc16_while]
  rw [h1, h2, h3, and_255, shl_8, Nat.xor_self, Nat.zero_mod, h4]

/-! ## Contexts the decoder cannot tell apart -/

theorem sim_step_header1 (a b : ParseContext) (x : Nat) (h : Sim a b)
    (hst : a.state = .STATE_WAIT_HEADER1) : SimStep a b x := by
  obtain ⟨st, di, pl, cmd, dat, rc, cb, ci⟩ := a
  obtain ⟨st2, di2, pl2, cmd2, dat2, rc2, cb2, ci2⟩ := b
  obtain ⟨hs, hd1, hd2, hc1, hc2, hm⟩ := h
  simp only at hst hs hd1 hd2 hc1 hc2
  subst hst
  subst hs
  unfold SimStep
  simp only [data_comm_parse_byte]
  by_cases hx : x = (FRAME_HEADER >>> 8) &&& 0xFF
  · simp only [if_pos hx]
    exact ⟨⟨rfl, hd1, hd2, hc1, hc2, trivial⟩, trivial⟩
  · simp only [if_neg hx]
    exact ⟨⟨rfl, hd1, hd2, hc1, hc2, trivial⟩, trivial⟩

theorem sim_step_header2 (a b : ParseContext) (x : Nat) (h : Sim a b)
    (hst : a.state = .STATE_WAIT_HEADER2) : SimStep a b x := by
  obtain ⟨st, di, pl, cmd, dat, rc, cb, ci⟩ := a
  obtain ⟨st2, di2, pl2, cmd2, dat2, rc2, cb2, ci2⟩ := b
  obtain ⟨hs, hd1, hd2, hc1, hc2, hm⟩ := h
  simp only at hst hs hd1 hd2 hc1 hc2
  subst hst
  subst hs
  unfold SimStep
  simp only [data_comm_parse_byte]
  by_cases hx : x = FRAME_HEADER &&& 0xFF
  · simp only [if_pos hx]
    exact ⟨⟨rfl, hd1, hd2, hc1, hc2, rfl, rfl⟩, trivial⟩
  · simp only [if_neg hx]
    exact ⟨⟨rfl, hd1, hd2, hc1, hc2, trivial⟩, trivial⟩

theorem sim_take_set (cb cb2 : List Nat) (ci x : Nat) (h1 : ci < cb.length)
    (h2 : ci < cb2.length) (h : cb.take ci = cb2.take ci) :
    (cb.set ci x).take (ci + 1) = (cb2.set ci x).take (ci + 1) := by
  rw [take_set_succ cb ci x h1, take_set_succ cb2 ci x h2, h]

theorem sim_step_length_high (a b : ParseContext) (x : Nat) (h : Sim a b)
    (hst : a.state = .STATE_WAIT_LENGTH_HIGH) : SimStep a b x := by
  obtain ⟨st, di, pl, cmd, dat, rc, cb, ci⟩ := a
  obtain ⟨st2, di2, pl2, cmd2, dat2, rc2, cb2, ci2⟩ := b
  obtain ⟨hs, hd1, hd2, hc1, hc2, hm⟩ := h
  simp only at hst hs hd1 hd2 hc1 hc2
  subst hst
  subst hs
  obtain ⟨h1, h2⟩ := hm
  simp only at h1 h2
  subst h1 h2
  simp only [MAX_DATA_LENGTH] at hd1 hd2 hc1 hc2
  unfold SimStep
  simp only [data_comm_parse_byte, write, hc1, hc2]
  simp only [Nat.reduceAdd, Nat.reduceMod, Nat.reduceLT, if_true, Option.some_bind]
  refine ⟨⟨rfl, hd1, hd2, by simpa using hc1, by simpa using hc2, rfl, rfl, ?_⟩, trivial⟩
  exact sim_take_set cb cb2 0 x (by omega) (by omega) rfl

theorem sim_step_length_low (a b : ParseContext) (x : Nat) (h : Sim a b)
    (hst : a.state = .STATE_WAIT_LENGTH_LOW) : SimStep a b x := by
  obtain ⟨st, di, pl, cmd, dat, rc, cb, ci⟩ := a
  obtain ⟨st2, di2, pl2, cmd2, dat2, rc2, cb2, ci2⟩ := b
  obtain ⟨hs, hd1, hd2, hc1, hc2, hm⟩ := h
  simp only at hst hs hd1 hd2 hc1 hc2
  subst hst
  subst hs
  obtain ⟨h1, h2, h3⟩ := hm
  simp only at h1 h2 h3
  subst h1 h2
  simp only [MAX_DATA_LENGTH] at hd1 hd2 hc1 hc2
  unfold SimStep
  simp only [data_comm_parse_byte, write, hc1, hc2]
  by_cases hci : ci < 256 + 3
  · have hmod : (ci + 1) % 65536 = ci + 1 := Nat.mod_eq_of_lt (by omega)
    have ht := sim_take_set cb cb2 ci x (by omega) (by omega) h3
    simp only [if_pos hci, Option.some_bind, hmod]
    by_cases hbad : (pl ||| x) % 65536 = 0 ∨ (pl ||| x) % 65536 > MAX_DATA_LENGTH + 1
    · simp only [if_pos hbad]
      exact ⟨⟨rfl, hd1, hd2, by simpa using hc1, by simpa using hc2, trivial⟩, trivial⟩
    · simp only [if_neg hbad]
      exact ⟨⟨rfl, hd1, hd2, by simpa using hc1, by simpa using hc2, rfl, rfl, ht⟩, trivial⟩
  · simp only [if_neg hci, Option.none_bind]

theorem sim_step_cmd (a b : ParseContext) (x : Nat) (h : Sim a b)
    (hst : a.state = .STATE_WAIT_CMD) : SimStep a b x := by
  obtain ⟨st, di, pl, cmd, dat, rc, cb, ci⟩ := a
  obtain ⟨st2, di2, pl2, cmd2, dat2, rc2, cb2, ci2⟩ := b
  obtain ⟨hs, hd1, hd2, hc1, hc2, hm⟩ := h
  simp only at hst hs hd1 hd2 hc1 hc2
  subst hst
  subst hs
  obtain ⟨h1, h2, h3⟩ := hm
  simp only at h1 h2 h3
  subst h1 h2
  simp only [MAX_DATA_LENGTH] at hd1 hd2 hc1 hc2
  unfold SimStep
  simp only [data_comm_parse_byte, write, hc1, hc2]
  by_cases hci : ci < 256 + 3
  · have hmod : (ci + 1) % 65536 = ci + 1 := Nat.mod_eq_of_lt (by omega)
    have ht := sim_take_set cb cb2 ci x (by omega) (by omega) h3
    simp only [if_pos hci, Option.some_bind, hmod]
    by_cases hone : pl = 1
    · simp only [if_pos hone]
      exact ⟨⟨rfl, hd1, hd2, by simpa using hc1, by simpa using hc2, ⟨rfl, rfl, ht⟩,
        rfl, rfl, rfl⟩, trivial⟩
    · simp only [if_neg hone]
      exact ⟨⟨rfl, hd1, hd2, by simpa using hc1, by simpa using hc2, ⟨rfl, rfl, ht⟩,
        rfl, rfl, rfl⟩, trivial⟩
  · simp only [if_neg hci, Option.none_bind]

theorem sim_step_read_data (a b : ParseContext) (x : Nat) (h : Sim a b)
    (hst : a.state = .STATE_READ_DATA) : SimStep a b x := by
  obtain ⟨st, di, pl, cmd, dat, rc, cb, ci⟩ := a
  obtain ⟨st2, di2, pl2, cmd2, dat2, rc2, cb2, ci2⟩ := b
  obtain ⟨hs, hd1, hd2, hc1, hc2, hm⟩ := h
  simp only at hst hs hd1 hd2 hc1 hc2
  subst hst
  subst hs
  obtain ⟨⟨h1, h2, h3⟩, h4, h5, h6⟩ := hm
  simp only at h1 h2 h3 h4 h5 h6
  subst h1 h2 h4 h5
  simp only [MAX_DATA_LENGTH] at hd1 hd2 hc1 hc2
  unfold SimStep
  simp only [data_comm_parse_byte, write, hc1, hc2, hd1, hd2]
  by_cases hdi : di < 256
  · by_cases hci : ci < 256 + 3
    · have hmod : (ci + 1) % 65536 = ci + 1 := Nat.mod_eq_of_lt (by omega)
      have hmod2 : (di + 1) % 65536 = di + 1 := Nat.mod_eq_of_lt (by omega)
      have ht := sim_take_set cb cb2 ci x (by omega) (by omega) h3
      have hu := sim_take_set dat dat2 di x (by omega) (by omega) h6
      simp only [if_pos hdi, if_pos hci, Option.some_bind, hmod, hmod2]
      by_cases hfull : ((di + 1 : Nat) : Int) ≥ (pl : Int) - 1
      · simp only [if_pos hfull]
        exact ⟨⟨rfl, by simpa using hd1, by simpa using hd2, by simpa using hc1,
          by simpa using hc2, ⟨rfl, rfl, ht⟩, rfl, rfl, hu⟩, trivial⟩
      · simp only [if_neg hfull]
        exact ⟨⟨rfl, by simpa using hd1, by simpa using hd2, by simpa using hc1,
          by simpa using hc2, ⟨rfl, rfl, ht⟩, rfl, rfl, hu⟩, trivial⟩
    · simp only [if_pos hdi, if_neg hci, Option.some_bind, Option.none_bind]
  · simp only [if_neg hdi, Option.none_bind]

theorem sim_step_crc1 (a b : ParseContext) (x : Nat) (h : Sim a b)
    (hst : a.state = .STATE_WAIT_CRC1) : SimStep a b x := by
  obtain ⟨st, di, pl, cmd, dat, rc, cb, ci⟩ := a
  obtain ⟨st2, di2, pl2, cmd2, dat2, rc2, cb2, ci2⟩ := b
  obtain ⟨hs, hd1, hd2, hc1, hc2, hm⟩ := h
  simp only at hst hs hd1 hd2 hc1 hc2
  subst hst
  subst hs
  obtain ⟨hh, hb⟩ := hm
  unfold SimStep
  simp only [data_comm_parse_byte]
  exact ⟨⟨rfl, hd1, hd2, hc1, hc2, hh, hb, rfl⟩, trivial⟩

theorem sim_step_crc2 (a b : ParseContext) (x : Nat) (h : Sim a b)
    (hst : a.state = .STATE_WAIT_CRC2) : SimStep a b x := by
  obtain ⟨st, di, pl, cmd, dat, rc, cb, ci⟩ := a
  obtain ⟨st2, di2, pl2, cmd2, dat2, rc2, cb2, ci2⟩ := b
  obtain ⟨hs, hd1, hd2, hc1, hc2, hm⟩ := h
  simp only at hst hs hd1 hd2 hc1 hc2
  subst hst
  subst hs
  obtain ⟨hh, hb, hr⟩ := hm
  obtain ⟨h1, h2, h3⟩ := hh
  simp only at h1 h2 h3 hr
  subst h1 h2 hr
  unfold SimStep
  simp only [data_comm_parse_byte, ← h3]
  by_cases hne : crc16_ccitt (List.take ci cb) ≠ (rc ||| x) % 65536
  · simp only [if_pos hne]
    exact ⟨⟨rfl, hd1, hd2, hc1, hc2, trivial⟩, trivial⟩
  · simp only [if_neg hne]
    exact ⟨⟨rfl, hd1, hd2, hc1, hc2, ⟨rfl, rfl, h3⟩, hb⟩, trivial⟩

theorem sim_step_end1 (a b : ParseContext) (x : Nat) (h : Sim a b)
    (hst : a.state = .STATE_WAIT_END1) : SimStep a b x := by
  obtain ⟨st, di, pl, cmd, dat, rc, cb, ci⟩ := a
  obtain ⟨st2, di2, pl2, cmd2, dat2, rc2, cb2, ci2⟩ := b
  obtain ⟨hs, hd1, hd2, hc1, hc2, hm⟩ := h
  simp only at hst hs hd1 hd2 hc1 hc2
  subst hst
  subst hs
  obtain ⟨hh, hb⟩ := hm
  unfold SimStep
  simp only [data_comm_parse_byte]
  by_cases hx : x = (FRAME_END >>> 8) &&& 0xFF
  · simp only [if_pos hx]
    exact ⟨⟨rfl, hd1, hd2, hc1, hc2, hh, hb⟩, trivial⟩
  · simp only [if_neg hx]
    exact ⟨⟨rfl, hd1, hd2, hc1, hc2, trivial⟩, trivial⟩

theorem sim_step_end2 (a b : ParseContext) (x : Nat) (h : Sim a b)
    (hst : a.state = .STATE_WAIT_END2) : SimStep a b x := by
  obtain ⟨st, di, pl, cmd, dat, rc, cb, ci⟩ := a
  obtain ⟨st2, di2, pl2, cmd2, dat2, rc2, cb2, ci2⟩ := b
  obtain ⟨hs, hd1, hd2, hc1, hc2, hm⟩ := h
  simp only at hst hs hd1 hd2 hc1 hc2
  subst hst
  subst hs
  obtain ⟨hh, h4, h5, h6⟩ := hm
  simp only at h4 h5 h6
  subst h4 h5
  unfold SimStep
  simp only [data_comm_parse_byte]
  by_cases hx : x = FRAME_END &&& 0xFF
  · simp only [if_pos hx]
    refine ⟨⟨rfl, hd1, hd2, hc1, hc2, trivial⟩, ?_⟩
    simp only [Option.map_some', Packet.view, Packet.payload, h6]
  · simp only [if_neg hx]
    exact ⟨⟨rfl, hd1, hd2, hc1, hc2, trivial⟩, trivial⟩

/-- One byte keeps two contexts the decoder cannot tell apart that way, and the two
calls make the same handler call. -/
theorem sim_step (a b : ParseContext) (x : Nat) (h : Sim a b) : SimStep a b x := by
  cases hst : a.state with
  | STATE_WAIT_HEADER1 => exact sim_step_header1 a b x h hst
  | STATE_WAIT_HEADER2 => exact sim_step_header2 a b x h hst
  | STATE_WAIT_LENGTH_HIGH => exact sim_step_length_high a b x h hst
  | STATE_WAIT_LENGTH_LOW => exact sim_step_length_low a b x h hst
  | STATE_WAIT_CMD => exact sim_step_cmd a b x h hst
  | STATE_READ_DATA => exact sim_step_read_data a b x h hst
  | STATE_WAIT_CRC1 => exact sim_step_crc1 a b x h hst
  | STATE_WAIT_CRC2 => exact sim_step_crc2 a b x h hst
  | STATE_WAIT_END1 => exact sim_step_end1 a b x h hst
  | STATE_WAIT_END2 => exact sim_step_end2 a b x h hst

theorem sim_feed (s : List Nat) : ∀ (a b a1 b1 : ParseContext) (t1 t2 : List (Option Packet)),
    Sim a b → feed a s = some (a1, t1) → feed b s = some (b1, t2) →
    Sim a1 b1 ∧ t1.map (Option.map Packet.view) = t2.map (Option.map Packet.view) := by
  induction s with
  | nil =>
    intro a b a1 b1 t1 t2 h h1 h2
    simp only [feed, Option.some.injEq, Prod.mk.injEq] at h1 h2
    obtain ⟨rfl, rfl⟩ := h1
    obtain ⟨rfl, rfl⟩ := h2
    exact ⟨h, rfl⟩
  | cons x rest ih =>
    intro a b a1 b1 t1 t2 h h1 h2
    simp only [feed] at h1 h2
    obtain ⟨r1, hr1, h1⟩ := Option.bind_eq_some.mp h1
    obtain ⟨u1, hu1, h1⟩ := Option.bind_eq_some.mp h1
    obtain ⟨r2, hr2, h2⟩ := Option.bind_eq_some.mp h2
    obtain ⟨u2, hu2, h2⟩ := Option.bind_eq_some.mp h2
    simp only [Option.some.injEq, Prod.mk.injEq] at h1 h2
    obtain ⟨rfl, rfl⟩ := h1
    obtain ⟨rfl, rfl⟩ := h2
    have hstep := sim_step a b x h
    unfold SimStep at hstep
    rw [hr1, hr2] at hstep
    obtain ⟨hsim, hev⟩ := hstep
    obtain ⟨hsim2, htr⟩ := ih r1.1 r2.1 u1.1 u2.1 u1.2 u2.2 hsim hu1 hu2
    exact ⟨hsim2, by simp only [List.map_cons, hev, htr]⟩

theorem write_length (buf b : List Nat) (i v : Nat) (h : write buf i v = some b) :
    b.length = buf.length := by
  unfold write at h
  split_ifs at h
  simp only [Option.some.injEq] at h
  rw [← h, List.length_set]

theorem memcpy_length (n : Nat) : ∀ (dst src d : List Nat) (off : Nat),
    memcpy dst off src n = some d → d.length = dst.length := by
  induction n with
  | zero =>
    intro dst src d off h
    simp only [memcpy, Option.some.injEq] at h
    rw [h]
  | succ n ih =>
    intro dst src d off h
    cases src with
    | nil => simp [memcpy] at h
    | cons b src =>
      simp only [memcpy] at h
      obtain ⟨d1, hd1, h⟩ := Option.bind_eq_some.mp h
      rw [ih d1 src d (off + 1) h, write_length dst d1 off b hd1]

/-- The scratch buffer keeps its size over a call of `data_comm_send`. -/
theorem send_buffer_length (buf : List Nat) (c : Nat) (p : List Nat) (len : Nat)
    (r : SendResult) (h : data_comm_send buf c (some p) len = some r) :
    r.buffer.length = buf.length := by
  unfold data_comm_send at h
  by_cases hgt : len > MAX_DATA_LENGTH
  · rw [if_pos hgt] at h
    simp only [Option.some.injEq] at h
    rw [← h]
  · rw [if_neg hgt] at h
    simp only [Option.bind_eq_bind, Option.pure_def, Option.map_eq_map, bind_pure_comp] at h
    obtain ⟨b0, h0, h⟩ := Option.bind_eq_some.mp h
    obtain ⟨b1, h1, h⟩ := Option.bind_eq_some.mp h
    obtain ⟨b2, h2, h⟩ := Option.bind_eq_some.mp h
    obtain ⟨b3, h3, h⟩ := Option.bind_eq_some.mp h
    obtain ⟨b4, h4, h⟩ := Option.bind_eq_some.mp h
    have l4 : b4.length = buf.length := by
      rw [write_length _ _ _ _ h4, write_length _ _ _ _ h3, write_length _ _ _ _ h2,
        write_length _ _ _ _ h1, write_length _ _ _ _ h0]
    have key : ∀ (y : List Nat × Nat), y.1.length = buf.length →
        ((write y.1 y.2 (crc16_ccitt (List.take (y.2 - 2) (List.drop 2 y.1)) >>> 8 &&& 255)).bind
          fun buffer =>
          (write buffer (y.2 + 1)
            (crc16_ccitt (List.take (y.2 - 2) (List.drop 2 y.1)) &&& 255)).bind fun buffer =>
            (write buffer (y.2 + 1 + 1) (FRAME_END >>> 8 &&& 255)).bind fun buffer =>
              (write buffer (y.2 + 1 + 1 + 1) (FRAME_END &&& 255)).bind fun buffer =>
                some ({ buffer := buffer, transmitted := some (List.take (y.2 + 1 + 1 + 1 + 1) buffer),
                        ret := y.2 + 1 + 1 + 1 + 1 } : SendResult)) = some r →
        r.buffer.length = buf.length := by
      intro y hy hr
      obtain ⟨b5, h5, hr⟩ := Option.bind_eq_some.mp hr
      obtain ⟨b6, h6, hr⟩ := Option.bind_eq_some.mp hr
      obtain ⟨b7, h7, hr⟩ := Option.bind_eq_some.mp hr
      obtain ⟨b8, h8, hr⟩ := Option.bind_eq_some.mp hr
      simp only [Option.some.injEq] at hr
      rw [← hr]
      show b8.length = buf.length
      rw [write_length _ _ _ _ h8, write_length _ _ _ _ h7, write_length _ _ _ _ h6,
        write_length _ _ _ _ h5, hy]
    by_cases hpos : len > 0
    · simp only [if_pos hpos] at h
      obtain ⟨y, hy, h⟩ := Option.bind_eq_some.mp h
      obtain ⟨d, hd, hy⟩ := Option.map_eq_some'.mp hy
      refine key y ?_ h
      rw [← hy]
      show d.length = buf.length
      rw [memcpy_length _ _ _ _ _ hd, l4]
    · simp only [if_neg hpos] at h
      obtain ⟨y, hy, h⟩ := Option.bind_eq_some.mp h
      simp only [Option.some.injEq] at hy
      refine key y ?_ h
      rw [← hy]
      exact l4

theorem inv_of_header1 (ctx : ParseContext) (hst : ctx.state = .STATE_WAIT_HEADER1)
    (hd : ctx.data.length = MAX_DATA_LENGTH) (hc : ctx.crc_buffer.length = MAX_DATA_LENGTH + 3) :
    Inv ctx [] := by
  refine ⟨hd, hc, ?_⟩
  rw [hst]
  trivial

theorem sim_of_header1 (a b : ParseContext) (ha : a.state = .STATE_WAIT_HEADER1)
    (hb : b.state = .STATE_WAIT_HEADER1)
    (had : a.data.length = MAX_DATA_LENGTH) (hbd : b.data.length = MAX_DATA_LENGTH)
    (hac : a.crc_buffer.length = MAX_DATA_LENGTH + 3)
    (hbc : b.crc_buffer.length = MAX_DATA_LENGTH + 3) : Sim a b := by
  refine ⟨ha.trans hb.symm, had, hbd, hac, hbc, ?_⟩
  rw [ha]
  trivial

/-- Frames sent one after the other and fed to a decoder in header search, whatever
the other fields of its context hold: each frame is handed over once, in order. -/
theorem feed_frames (fs : List (Nat × List Nat)) : ∀ (buf : List Nat) (ctx : ParseContext),
    buf.length = MAX_DATA_LENGTH + 10 → ctx.state = .STATE_WAIT_HEADER1 →
    ctx.data.length = MAX_DATA_LENGTH → ctx.crc_buffer.length = MAX_DATA_LENGTH + 3 →
    (∀ f ∈ fs, f.2.length ≤ MAX_DATA_LENGTH) →
    ∃ stream ctx1 tr, send_all buf fs = some stream ∧ feed ctx stream = some (ctx1, tr) ∧
      tr.map (Option.map Packet.view) = frames_calls fs := by
  induction fs with
  | nil =>
    intro buf ctx _ _ _ _ _
    exact ⟨[], ctx, [], rfl, rfl, rfl⟩
  | cons f fs ih =>
    intro buf ctx hbuf hst hd hc hfs
    have hp : f.2.length ≤ MAX_DATA_LENGTH := hfs f (List.mem_cons_self _ _)
    obtain ⟨rest, hs⟩ := send_ok buf f.1 f.2 hbuf hp
    have hlen := send_buffer_length buf f.1 f.2 f.2.length _ hs
    obtain ⟨ctx1, hf, hst1, hdat, hd1, hc1⟩ := feed_frame ctx f.1 f.2 hst hd hc hp
    obtain ⟨stream, ctx2, tr, h1, h2, h3⟩ := ih (wire_frame f.1 f.2 ++ rest) ctx1
      (by rw [← hbuf]; exact hlen) hst1 hd1 hc1 (fun g hg => hfs g (List.mem_cons_of_mem _ hg))
    refine ⟨wire_frame f.1 f.2 ++ stream, ctx2,
      (List.replicate (f.2.length + 8) none
        ++ [some { cmd := f.1, data := ctx1.data, len := f.2.length }]) ++ tr, ?_, ?_, ?_⟩
    · simp only [send_all, hs, Option.some_bind, h1, Option.map_some']
    · rw [feed_append, hf]
      simp only [Option.some_bind, h2]
    · simp only [List.map_append, List.map_replicate, List.map_cons, List.map_nil,
        Option.map_none', Option.map_some', Packet.view, Packet.payload, hdat, h3, frames_calls]

/-! ## No handler call before the declared payload is read -/

theorem step_needed (ctx : ParseContext) (b : Nat) (r : ParseContext × Option Packet)
    (h : data_comm_parse_byte ctx b = some r) :
    bytes_needed ctx ≤ bytes_needed r.1 + 1 ∧ (2 ≤ bytes_needed ctx → r.2 = none) := by
  obtain ⟨st, di, pl, cmd, dat, rc, cb, ci⟩ := ctx
  obtain ⟨r1, r2⟩ := r
  cases st <;> simp only [data_comm_parse_byte, write] at h
  all_goals try split_ifs at h
  all_goals simp at h
  all_goals try (obtain ⟨rfl, rfl⟩ := h)
  all_goals simp [bytes_needed, frame_distance]
  all_goals omega

/-- A decoder fed fewer bytes than its context is away from a handler call makes no
handler call. -/
theorem feed_quiet_needed (s : List Nat) :
    ∀ (ctx ctx1 : ParseContext) (tr : List (Option Packet)),
    feed ctx s = some (ctx1, tr) → s.length < bytes_needed ctx →
    tr = List.replicate s.length none := by
  induction s with
  | nil =>
    intro ctx ctx1 tr h _
    simp only [feed, Option.some.injEq, Prod.mk.injEq] at h
    obtain ⟨_, rfl⟩ := h
    rfl
  | cons b rest ih =>
    intro ctx ctx1 tr h hlt
    simp only [feed] at h
    obtain ⟨r, hr, h⟩ := Option.bind_eq_some.mp h
    obtain ⟨t, ht, h⟩ := Option.bind_eq_some.mp h
    simp only [Option.some.injEq, Prod.mk.injEq] at h
    obtain ⟨hd1, hd2⟩ := step_needed ctx b r hr
    simp only [List.length_cons] at hlt
    rw [← h.2, hd2 (by omega), ih r.1 t.1 t.2 ht (by omega)]
    rfl

/-- A frame with one bit of a length byte flipped: header, command, payload, checksum
and trailer are those of the frame, and bytes 2 and 3 are the length bytes read. -/
theorem flip_length_frame (c : Nat) (p : List Nat) (j k : Nat) (hj : j = 2 ∨ j = 3)
    (hk : k < 8) :
    ∃ h l tl, h < 256 ∧ l < 256 ∧ tl.length = 4 ∧
      flip_bit (wire_frame c p) j k = [0xAA, 0x55, h, l, c] ++ (p ++ tl) ∧
      (flip_bit (wire_frame c p) j k).getD 2 0 = h ∧
      (flip_bit (wire_frame c p) j k).getD 3 0 = l := by
  have h255 : ∀ x : Nat, x &&& 0xFF < 256 := by
    intro x; rw [and_255]; exact Nat.mod_lt _ (by norm_num)
  rcases hj with rfl | rfl
  · exact ⟨(((p.length + 1) >>> 8) &&& 0xFF) ^^^ (1 <<< k), (p.length + 1) &&& 0xFF,
      [(crc16_ccitt ([((p.length + 1) >>> 8) &&& 0xFF, (p.length + 1) &&& 0xFF, c] ++ p) >>> 8)
          &&& 0xFF,
        crc16_ccitt ([((p.length + 1) >>> 8) &&& 0xFF, (p.length + 1) &&& 0xFF, c] ++ p)
          &&& 0xFF, 0x55, 0xAA],
      flip_lt _ k (h255 _) hk, h255 _, rfl, by simp [wire_frame, flip_bit],
      by simp [wire_frame, flip_bit], by simp [wire_frame, flip_bit]⟩
  · exact ⟨((p.length + 1) >>> 8) &&& 0xFF, ((p.length + 1) &&& 0xFF) ^^^ (1 <<< k),
      [(crc16_ccitt ([((p.length + 1) >>> 8) &&& 0xFF, (p.length + 1) &&& 0xFF, c] ++ p) >>> 8)
          &&& 0xFF,
        crc16_ccitt ([((p.length + 1) >>> 8) &&& 0xFF, (p.length + 1) &&& 0xFF, c] ++ p)
          &&& 0xFF, 0x55, 0xAA],
      h255 _, flip_lt _ k (h255 _) hk, rfl, by simp [wire_frame, flip_bit],
      by simp [wire_frame, flip_bit], by simp [wire_frame, flip_bit]⟩

/-- A frame whose length field declares more payload than the frame carries, within
range: the decoder is still reading when the frame ends, and makes no handler call. -/
theorem feed_raised (h l c : Nat) (p tl : List Nat) (hh : h < 256) (hl : l < 256)
    (htl : tl.length = 4) (hraise : p.length + 1 < h * 256 + l)
    (hrange : h * 256 + l ≤ MAX_DATA_LENGTH + 1)
    (hbytes : ∀ b ∈ [0xAA, 0x55, h, l, c] ++ (p ++ tl), b < 256) :
    ∃ ctx1, feed data_comm_init ([0xAA, 0x55, h, l, c] ++ (p ++ tl))
      = some (ctx1, List.replicate (p.length + 9) none) := by
  obtain ⟨ctx1, tr, hf, _, _, _⟩ :=
    inv_feed ([0xAA, 0x55, h, l, c] ++ (p ++ tl)) [] data_comm_init inv_init hbytes
  obtain ⟨ctx0, t1, t2, g1, g2, g3, _⟩ := feed_split _ _ _ _ _ hf
  have hh5 := feed_head data_comm_init h l c init_state init_crc_length hh hl (by omega) hrange
  rw [hh5] at g1
  simp only [Option.some.injEq, Prod.mk.injEq] at g1
  obtain ⟨hc0, rfl⟩ := g1
  have hq := feed_quiet_needed (p ++ tl) ctx0 ctx1 t2 g2 (by
    rw [← hc0, if_neg (by omega)]
    simp only [bytes_needed, List.length_append, htl]
    omega)
  refine ⟨ctx1, ?_⟩
  rw [hf, g3, hq, List.length_append, htl]
  rfl

/-- A frame with one bit of its command or payload flipped, then one byte other than
0x55, then a second frame: the second frame is handed over on its last byte. -/
theorem feed_corrupt_gap_frame (buf1 buf2 : List Nat) (c1 : Nat) (p1 : List Nat) (c2 : Nat)
    (p2 : List Nat) (j k x : Nat)
    (hbuf1 : buf1.length = MAX_DATA_LENGTH + 10) (hbuf2 : buf2.length = MAX_DATA_LENGTH + 10)
    (hp1 : p1.length ≤ MAX_DATA_LENGTH) (hp2 : p2.length ≤ MAX_DATA_LENGTH)
    (hc1 : c1 < 256) (hpb1 : ∀ b ∈ p1, b < 256) (hk : k < 8)
    (hj1 : 4 ≤ j) (hj2 : j ≤ 4 + p1.length) (hx : x ≠ 0x55) :
    ∃ r1 F1 r2 F2 ctx1 data,
      data_comm_send buf1 c1 (some p1) p1.length = some r1 ∧ r1.transmitted = some F1 ∧
      data_comm_send buf2 c2 (some p2) p2.length = some r2 ∧ r2.transmitted = some F2 ∧
      feed data_comm_init (flip_bit F1 j k ++ x :: F2)
        = some (ctx1, List.replicate (F1.length + 1 + (F2.length - 1)) none
            ++ [some { cmd := c2, data := data, len := p2.length }]) ∧
      data.take p2.length = p2 := by
  obtain ⟨rest1, hs1⟩ := send_ok buf1 c1 p1 hbuf1 hp1
  obtain ⟨rest2, hs2⟩ := send_ok buf2 c2 p2 hbuf2 hp2
  obtain ⟨c3, p3, hl3, hfl, hcrc⟩ := flip_frame c1 p1 j k hc1 hpb1 hk hj1 hj2
  obtain ⟨ctxa, hfa, hsta, hda, hca⟩ := feed_corrupt data_comm_init c3 p3
    (crc16_ccitt ([((p1.length + 1) >>> 8) &&& 0xFF, (p1.length + 1) &&& 0xFF, c1] ++ p1))
    init_state init_data_length init_crc_length (by rw [hl3]; exact hp1) (crc16_ccitt_lt _)
    (by rw [hl3]; exact hcrc)
  rw [hl3, ← hfl] at hfa
  have hstep : data_comm_parse_byte ctxa x
      = some ({ ctxa with state := .STATE_WAIT_HEADER1 }, none) := by
    simp [data_comm_parse_byte, hsta, hdr_lo, hx]
  obtain ⟨ctxb, hfb, _, hdat, _, _⟩ :=
    feed_frame { ctxa with state := .STATE_WAIT_HEADER1 } c2 p2 rfl hda hca hp2
  refine ⟨_, wire_frame c1 p1, _, wire_frame c2 p2, ctxb, ctxb.data, hs1, rfl, hs2, rfl, ?_, hdat⟩
  have hxf : feed ctxa (x :: wire_frame c2 p2)
      = some (ctxb, none :: (List.replicate (p2.length + 8) none
          ++ [some { cmd := c2, data := ctxb.data, len := p2.length }])) := by
    rw [feed, hstep]
    simp only [Option.some_bind]
    rw [hfb]
    rfl
  rw [feed_append, hfa]
  simp only [Option.some_bind, hxf, wire_frame_length]
  congr 2
  rw [show p2.length + 9 - 1 = p2.length + 8 by omega]
  exact trace_glue _ _ _

/-! ## The claims -/

/-- C1. Round trip: for every command byte and every payload of at most
`MAX_DATA_LENGTH` bytes (the empty one and one of exactly 256 bytes included),
`data_comm_send` hands a frame to `user_transmit`, and feeding that frame byte by
byte to a freshly initialised decoder calls `user_packet_handler` exactly once, on
the last byte, with the command, a payload equal to the one sent and its length. -/
theorem C1_round_trip (buf : List Nat) (c : Nat) (p : List Nat)
    (hbuf : buf.length = MAX_DATA_LENGTH + 10) (hp : p.length ≤ MAX_DATA_LENGTH) :
    ∃ r frame ctx1 data,
      data_comm_send buf c (some p) p.length = some r ∧ r.transmitted = some frame ∧
      feed data_comm_init frame
        = some (ctx1, List.replicate (frame.length - 1) none
            ++ [some { cmd := c, data := data, len := p.length }]) ∧
      data.take p.length = p := by
  obtain ⟨rest, hs⟩ := send_ok buf c p hbuf hp
  obtain ⟨ctx1, hf, _, hdat, _, _⟩ :=
    feed_frame data_comm_init c p init_state init_data_length init_crc_length hp
  refine ⟨_, wire_frame c p, ctx1, ctx1.data, hs, rfl, ?_, hdat⟩
  rw [hf, wire_frame_length]
  rfl

theorem C1_round_trip_witness :
    (List.replicate 266 0).length = MAX_DATA_LENGTH + 10 ∧ ([] : List Nat).length ≤ MAX_DATA_LENGTH ∧
    ∃ r frame ctx1 data,
      data_comm_send (List.replicate 266 0) 0x01 (some []) ([] : List Nat).length = some r ∧
      r.transmitted = some frame ∧
      feed data_comm_init frame
        = some (ctx1, List.replicate (frame.length - 1) none
            ++ [some { cmd := 0x01, data := data, len := ([] : List Nat).length }]) ∧
      data.take ([] : List Nat).length = [] :=
  ⟨by simp [MAX_DATA_LENGTH], by simp,
    C1_round_trip (List.replicate 266 0) 0x01 [] (by simp [MAX_DATA_LENGTH]) (by simp)⟩

/-- C2. Wire format: for every command byte `c` and payload `p` of at most 256 bytes,
`data_comm_send` hands to `user_transmit` exactly
`AA 55 hi(L) lo(L) c p hi(K) lo(K) 55 AA` with `L = len(p) + 1` (so `1 ≤ L ≤ 257`) and
`K` the checksum of `hi(L) lo(L) c p` (the header is not covered), and returns the
number of bytes sent, `len(p) + 9`, which fits the 266-byte scratch buffer. -/
theorem C2_wire_format (buf : List Nat) (c : Nat) (p : List Nat)
    (hbuf : buf.length = MAX_DATA_LENGTH + 10) (hp : p.length ≤ MAX_DATA_LENGTH) :
    ∃ r, data_comm_send buf c (some p) p.length = some r ∧
      r.transmitted = some
        ([0xAA, 0x55, (p.length + 1) / 256, (p.length + 1) % 256, c] ++ p ++
          [crc16_ccitt ([(p.length + 1) / 256, (p.length + 1) % 256, c] ++ p) / 256,
            crc16_ccitt ([(p.length + 1) / 256, (p.length + 1) % 256, c] ++ p) % 256,
            0x55, 0xAA]) ∧
      r.ret = p.length + 9 ∧ r.ret ≤ 266 ∧ 1 ≤ p.length + 1 ∧ p.length + 1 ≤ 257 := by
  obtain ⟨rest, hs⟩ := send_ok buf c p hbuf hp
  have hp2 : p.length ≤ 256 := hp
  refine ⟨_, hs, ?_, rfl, ?_, by omega, by omega⟩
  · rw [← wire_frame_eq c p hp]
  · show p.length + 9 ≤ 266
    omega

theorem C2_wire_format_witness :
    (List.replicate 266 0).length = MAX_DATA_LENGTH + 10 ∧ [7, 8, 9].length ≤ MAX_DATA_LENGTH ∧
    ∃ r, data_comm_send (List.replicate 266 0) 0x20 (some [7, 8, 9]) [7, 8, 9].length = some r ∧
      r.transmitted = some
        ([0xAA, 0x55, ([7, 8, 9].length + 1) / 256, ([7, 8, 9].length + 1) % 256, 0x20]
          ++ [7, 8, 9] ++
          [crc16_ccitt ([([7, 8, 9].length + 1) / 256, ([7, 8, 9].length + 1) % 256, 0x20]
              ++ [7, 8, 9]) / 256,
            crc16_ccitt ([([7, 8, 9].length + 1) / 256, ([7, 8, 9].length + 1) % 256, 0x20]
              ++ [7, 8, 9]) % 256,
            0x55, 0xAA]) ∧
      r.ret = [7, 8, 9].length + 9 ∧ r.ret ≤ 266 ∧ 1 ≤ [7, 8, 9].length + 1 ∧
        [7, 8, 9].length + 1 ≤ 257 :=
  ⟨by simp [MAX_DATA_LENGTH], by simp [MAX_DATA_LENGTH],
    C2_wire_format (List.replicate 266 0) 0x20 [7, 8, 9] (by simp [MAX_DATA_LENGTH])
      (by simp [MAX_DATA_LENGTH])⟩

/-- C3. Payload-too-long guard: `data_comm_send` rejects the call (returns 0 and does
not call `user_transmit`, so no byte is produced) if and only if the payload length
exceeds `MAX_DATA_LENGTH` = 256; a payload of 256 bytes is sent, one of 257 is not. -/
theorem C3_payload_too_long (buf : List Nat) (c : Nat) (p : List Nat)
    (hbuf : buf.length = MAX_DATA_LENGTH + 10) :
    ∃ r, data_comm_send buf c (some p) p.length = some r ∧
      ((r.ret = 0 ∧ r.transmitted = none) ↔ p.length > 256) := by
  by_cases hp : p.length ≤ MAX_DATA_LENGTH
  · obtain ⟨rest, hs⟩ := send_ok buf c p hbuf hp
    have hp2 : p.length ≤ 256 := hp
    refine ⟨_, hs, ?_⟩
    constructor
    · intro h
      exact absurd h.2 (by simp)
    · intro h
      omega
  · refine ⟨{ buffer := buf, transmitted := none, ret := 0 }, ?_, ?_⟩
    · unfold data_comm_send
      rw [if_pos (by omega)]
    · have hp2 : ¬ p.length ≤ 256 := hp
      constructor
      · intro _
        omega
      · intro _
        exact ⟨rfl, rfl⟩

theorem C3_payload_too_long_witness :
    (List.replicate 266 0).length = MAX_DATA_LENGTH + 10 ∧
    ∃ r, data_comm_send (List.replicate 266 0) 0x01 (some (List.replicate 257 0))
        (List.replicate 257 0).length = some r ∧
      ((r.ret = 0 ∧ r.transmitted = none) ↔ (List.replicate 257 0).length > 256) :=
  ⟨by simp [MAX_DATA_LENGTH],
    C3_payload_too_long (List.replicate 266 0) 0x01 (List.replicate 257 0)
      (by simp [MAX_DATA_LENGTH])⟩

/-- C4. Checksum reference: on every byte sequence `crc16_ccitt` equals the bit-serial
MSB-first checksum of the specification (accumulator from 0xFFFF; per byte, XOR into
the high 8 bits, then 8 rounds of shift left with XOR 0x1021 when the bit shifted out
was set, truncated to 16 bits; no reflection, no final XOR); the empty input gives
0xFFFF and the ASCII bytes of "123456789" give 0x29B1. -/
theorem C4_checksum_reference :
    (∀ bytes : List Nat, crc16_ccitt bytes = checksum_spec bytes) ∧
    crc16_ccitt [] = 0xFFFF ∧
    crc16_ccitt [0x31, 0x32, 0x33, 0x34, 0x35, 0x36, 0x37, 0x38, 0x39] = 0x29B1 := by
  refine ⟨fun bytes => crc16_while_eq _ bytes, by decide, by decide⟩

/-- C5 (amended). Corruption rejection: for every command byte, payload of at most 256
bytes and single bit of the checksum-covered span of the frame `data_comm_send`
builds, feeding the frame with that bit flipped to a freshly initialised decoder makes
no handler call at all when the bit lies in the command byte or in a payload byte, or
when it lies in a length byte and the length field of the flipped frame is larger than
`len(p) + 1` and at most 257; and in every case any handler call made carries a
payload strictly shorter than the payload of the frame. -/
theorem C5_corruption_rejection (buf : List Nat) (c : Nat) (p : List Nat) (j k : Nat)
    (hbuf : buf.length = MAX_DATA_LENGTH + 10) (hp : p.length ≤ MAX_DATA_LENGTH)
    (hc : c < 256) (hpb : ∀ b ∈ p, b < 256) (hk : k < 8)
    (hj1 : 2 ≤ j) (hj2 : j ≤ 4 + p.length) :
    ∃ r frame ctx1 tr,
      data_comm_send buf c (some p) p.length = some r ∧ r.transmitted = some frame ∧
      feed data_comm_init (flip_bit frame j k) = some (ctx1, tr) ∧
      ((4 ≤ j ∨
          (p.length + 1 < 256 * (flip_bit frame j k).getD 2 0 + (flip_bit frame j k).getD 3 0 ∧
            256 * (flip_bit frame j k).getD 2 0 + (flip_bit frame j k).getD 3 0 ≤ 257)) →
        tr = List.replicate frame.length none) ∧
      ∀ (i : Nat) (pkt : Packet), tr[i]? = some (some pkt) → pkt.len < p.length := by
  obtain ⟨rest, hs⟩ := send_ok buf c p hbuf hp
  have hbytes := flip_bit_lt (wire_frame c p) j k hk (wire_frame_lt c p hc hpb)
  obtain ⟨ctx1, tr, hf, _, hlen, hall⟩ :=
    inv_feed (flip_bit (wire_frame c p) j k) [] data_comm_init inv_init hbytes
  have hA : 4 ≤ j → tr = List.replicate (wire_frame c p).length none := by
    intro h4
    obtain ⟨c1, p1, hl1, hfl, hcrc⟩ := flip_frame c p j k hc hpb hk h4 hj2
    obtain ⟨ctx2, hf2, _⟩ := feed_corrupt data_comm_init c1 p1
      (crc16_ccitt ([((p.length + 1) >>> 8) &&& 0xFF, (p.length + 1) &&& 0xFF, c] ++ p))
      init_state init_data_length init_crc_length (by rw [hl1]; exact hp) (crc16_ccitt_lt _)
      (by rw [hl1]; exact hcrc)
    rw [hl1, ← hfl, hf] at hf2
    have := (Prod.mk.inj (Option.some.inj hf2)).2
    rw [this, wire_frame_length]
  have hB : ¬ 4 ≤ j →
      p.length + 1 < 256 * (flip_bit (wire_frame c p) j k).getD 2 0
        + (flip_bit (wire_frame c p) j k).getD 3 0 →
      256 * (flip_bit (wire_frame c p) j k).getD 2 0
        + (flip_bit (wire_frame c p) j k).getD 3 0 ≤ 257 →
      tr = List.replicate (wire_frame c p).length none := by
    intro h4 hraise hrange
    obtain ⟨h, l, tl, hh, hl, htl, hfl, h2, h3⟩ :=
      flip_length_frame c p j k (by omega) hk
    rw [h2, h3] at hraise hrange
    rw [hfl] at hbytes hf
    obtain ⟨ctx2, hf2⟩ := feed_raised h l c p tl hh hl htl (by omega)
      (by simp only [MAX_DATA_LENGTH]; omega) hbytes
    rw [hf] at hf2
    have := (Prod.mk.inj (Option.some.inj hf2)).2
    rw [this, wire_frame_length]
  refine ⟨_, wire_frame c p, ctx1, tr, hs, rfl, hf, ?_, ?_⟩
  · intro hcase
    by_cases h4 : 4 ≤ j
    · exact hA h4
    · rcases hcase with h | ⟨h1, h2⟩
      · exact absurd h h4
      · exact hB h4 h1 h2
  · intro i pkt hget
    by_cases h4 : 4 ≤ j
    · rw [hA h4, List.getElem?_replicate] at hget
      split at hget <;> simp at hget
    · have hdel := hall i pkt hget
      rw [List.nil_append] at hdel
      exact flip_length_short c p j k i pkt (by omega) hdel

theorem C5_corruption_rejection_witness :
    (List.replicate 266 0).length = MAX_DATA_LENGTH + 10 ∧
    [0xEF, 0x8C, 0x55, 0xAA].length ≤ MAX_DATA_LENGTH ∧ 0x01 < 256 ∧
    (∀ b ∈ [0xEF, 0x8C, 0x55, 0xAA], b < 256) ∧ 1 < 8 ∧ 2 ≤ 3 ∧
    3 ≤ 4 + [0xEF, 0x8C, 0x55, 0xAA].length ∧
    ∃ r frame ctx1 tr,
      data_comm_send (List.replicate 266 0) 0x01 (some [0xEF, 0x8C, 0x55, 0xAA])
        [0xEF, 0x8C, 0x55, 0xAA].length = some r ∧
      r.transmitted = some frame ∧
      feed data_comm_init (flip_bit frame 3 1) = some (ctx1, tr) ∧
      ((4 ≤ 3 ∨
          ([0xEF, 0x8C, 0x55, 0xAA].length + 1
              < 256 * (flip_bit frame 3 1).getD 2 0 + (flip_bit frame 3 1).getD 3 0 ∧
            256 * (flip_bit frame 3 1).getD 2 0 + (flip_bit frame 3 1).getD 3 0 ≤ 257)) →
        tr = List.replicate frame.length none) ∧
      ∀ (i : Nat) (pkt : Packet), tr[i]? = some (some pkt) →
        pkt.len < [0xEF, 0x8C, 0x55, 0xAA].length :=
  ⟨by simp [MAX_DATA_LENGTH], by simp [MAX_DATA_LENGTH], by decide, by decide, by decide,
    by decide, by decide,
    C5_corruption_rejection (List.replicate 266 0) 0x01 [0xEF, 0x8C, 0x55, 0xAA] 3 1
      (by simp [MAX_DATA_LENGTH]) (by simp [MAX_DATA_LENGTH]) (by decide) (by decide) (by decide)
      (by decide) (by decide)⟩

/-- C5, counterexample to the claim as stated. The frame of command 0x01 and payload
`EF 8C 55 AA` with bit 2 of its low length byte flipped (length 5 read as 1) makes the
decoder call the handler, with command 0x01 and an empty payload, on its ninth byte.
The frame of command 0x00 and payload `AA 55 00 01 01 EF 8C 55 AA` with bit 0 of its
high length byte flipped (length 10 read as 266, out of range) makes the decoder call
the handler, with command 0x01 and an empty payload, on its fourteenth byte. -/
theorem C5_corruption_rejection_counterexample :
    (data_comm_send (List.replicate 266 0) 0x01 (some [0xEF, 0x8C, 0x55, 0xAA]) 4).map
        (fun r => r.transmitted)
      = some (some [0xAA, 0x55, 0x00, 0x05, 0x01, 0xEF, 0x8C, 0x55, 0xAA, 0xE3, 0x4B, 0x55, 0xAA]) ∧
    flip_bit [0xAA, 0x55, 0x00, 0x05, 0x01, 0xEF, 0x8C, 0x55, 0xAA, 0xE3, 0x4B, 0x55, 0xAA] 3 2
      = [0xAA, 0x55, 0x00, 0x01, 0x01, 0xEF, 0x8C, 0x55, 0xAA, 0xE3, 0x4B, 0x55, 0xAA] ∧
    (feed data_comm_init
        (flip_bit [0xAA, 0x55, 0x00, 0x05, 0x01, 0xEF, 0x8C, 0x55, 0xAA, 0xE3, 0x4B, 0x55, 0xAA]
          3 2)).map
        (fun t => t.2.map (fun o => o.map (fun pkt => (pkt.cmd, pkt.payload, pkt.len))))
      = some [none, none, none, none, none, none, none, none, some (0x01, [], 0),
          none, none, none, none] ∧
    (data_comm_send (List.replicate 266 0) 0x00
          (some [0xAA, 0x55, 0x00, 0x01, 0x01, 0xEF, 0x8C, 0x55, 0xAA]) 9).map
        (fun r => r.transmitted)
      = some (some [0xAA, 0x55, 0x00, 0x0A, 0x00, 0xAA, 0x55, 0x00, 0x01, 0x01, 0xEF, 0x8C,
          0x55, 0xAA, 0xE6, 0xEC, 0x55, 0xAA]) ∧
    flip_bit [0xAA, 0x55, 0x00, 0x0A, 0x00, 0xAA, 0x55, 0x00, 0x01, 0x01, 0xEF, 0x8C,
        0x55, 0xAA, 0xE6, 0xEC, 0x55, 0xAA] 2 0
      = [0xAA, 0x55, 0x01, 0x0A, 0x00, 0xAA, 0x55, 0x00, 0x01, 0x01, 0xEF, 0x8C,
          0x55, 0xAA, 0xE6, 0xEC, 0x55, 0xAA] ∧
    (feed data_comm_init
        (flip_bit [0xAA, 0x55, 0x00, 0x0A, 0x00, 0xAA, 0x55, 0x00, 0x01, 0x01, 0xEF, 0x8C,
          0x55, 0xAA, 0xE6, 0xEC, 0x55, 0xAA] 2 0)).map
        (fun t => t.2.map (fun o => o.map (fun pkt => (pkt.cmd, pkt.payload, pkt.len))))
      = some [none, none, none, none, none, none, none, none, none, none, none, none, none,
          some (0x01, [], 0), none, none, none, none] := by
  refine ⟨by decide, by decide, by decide, by decide, by decide, by decide⟩

/-- C6. Only validated frames are delivered: for every byte stream fed to a freshly
initialised decoder (every step of which is defined), whenever the byte at position
`i` makes the decoder call `user_packet_handler` with `(c, data, n)`, then `n ≤ 256` and
the `n + 9` bytes of the stream ending at position `i` are exactly the frame that
`data_comm_send(c, data[0..n])` emits (header, length field `n + 1`, matching
checksum, trailer); so the payload handed over holds no checksum or trailer byte. -/
theorem C6_only_validated_frames (buf s : List Nat)
    (hbuf : buf.length = MAX_DATA_LENGTH + 10) (hs : ∀ b ∈ s, b < 256) :
    ∃ ctx1 tr, feed data_comm_init s = some (ctx1, tr) ∧ tr.length = s.length ∧
      ∀ i pkt, tr[i]? = some (some pkt) →
        pkt.len ≤ 256 ∧ pkt.len + 9 ≤ i + 1 ∧
        ∃ r, data_comm_send buf pkt.cmd (some (pkt.data.take pkt.len)) pkt.len = some r ∧
          r.transmitted = some ((s.take (i + 1)).drop (i + 1 - (pkt.len + 9))) := by
  obtain ⟨ctx1, tr, hf, _, hlen, hall⟩ := inv_feed s [] data_comm_init inv_init hs
  refine ⟨ctx1, tr, hf, hlen, ?_⟩
  intro i pkt hp
  have hi : i < s.length := by
    rw [← hlen]
    by_contra hge
    rw [List.getElem?_eq_none (by omega)] at hp
    simp at hp
  have hdel := hall i pkt hp
  rw [List.nil_append] at hdel
  exact delivered_send buf s i pkt hbuf hi hdel

theorem C6_only_validated_frames_witness :
    (List.replicate 266 0).length = MAX_DATA_LENGTH + 10 ∧
    (∀ b ∈ [0x13, 0xAA, 0x55, 0x00, 0x01, 0x07, 0x8F, 0x4A, 0x55, 0xAA, 0x55], b < 256) ∧
    ∃ ctx1 tr,
      feed data_comm_init [0x13, 0xAA, 0x55, 0x00, 0x01, 0x07, 0x8F, 0x4A, 0x55, 0xAA, 0x55]
        = some (ctx1, tr) ∧
      tr.length = [0x13, 0xAA, 0x55, 0x00, 0x01, 0x07, 0x8F, 0x4A, 0x55, 0xAA, 0x55].length ∧
      ∀ i pkt, tr[i]? = some (some pkt) →
        pkt.len ≤ 256 ∧ pkt.len + 9 ≤ i + 1 ∧
        ∃ r, data_comm_send (List.replicate 266 0) pkt.cmd (some (pkt.data.take pkt.len)) pkt.len
            = some r ∧
          r.transmitted = some
            (([0x13, 0xAA, 0x55, 0x00, 0x01, 0x07, 0x8F, 0x4A, 0x55, 0xAA, 0x55].take (i + 1)).drop
              (i + 1 - (pkt.len + 9))) :=
  ⟨by simp [MAX_DATA_LENGTH], by decide,
    C6_only_validated_frames (List.replicate 266 0)
      [0x13, 0xAA, 0x55, 0x00, 0x01, 0x07, 0x8F, 0x4A, 0x55, 0xAA, 0x55]
      (by simp [MAX_DATA_LENGTH]) (by decide)⟩

/-- C7. Resynchronisation after noise: for every sequence of noise bytes none of which
is a magic byte (0xAA or 0x55) and every frame built by `data_comm_send` for a payload
of at most 256 bytes, feeding the noise and then the frame to a freshly initialised
decoder calls `user_packet_handler` on no noise byte and exactly once while the frame
is fed, on its last byte, with the command and payload sent. -/
theorem C7_resync_after_noise (buf noise : List Nat) (c : Nat) (p : List Nat)
    (hbuf : buf.length = MAX_DATA_LENGTH + 10) (hp : p.length ≤ MAX_DATA_LENGTH)
    (hnoise : ∀ b ∈ noise, b ≠ 0xAA ∧ b ≠ 0x55) :
    ∃ r frame ctx1 data,
      data_comm_send buf c (some p) p.length = some r ∧ r.transmitted = some frame ∧
      feed data_comm_init (noise ++ frame)
        = some (ctx1, List.replicate noise.length none
            ++ (List.replicate (frame.length - 1) none
              ++ [some { cmd := c, data := data, len := p.length }])) ∧
      data.take p.length = p := by
  obtain ⟨rest, hs⟩ := send_ok buf c p hbuf hp
  obtain ⟨ctx1, hf, _, hdat, _, _⟩ :=
    feed_frame data_comm_init c p init_state init_data_length init_crc_length hp
  refine ⟨_, wire_frame c p, ctx1, ctx1.data, hs, rfl, ?_, hdat⟩
  rw [feed_append, feed_noise data_comm_init noise init_state (fun b hb => (hnoise b hb).1)]
  simp only [Option.some_bind, hf, wire_frame_length]
  rfl

theorem C7_resync_after_noise_witness :
    (List.replicate 266 0).length = MAX_DATA_LENGTH + 10 ∧ [2, 3].length ≤ MAX_DATA_LENGTH ∧
    (∀ b ∈ [0x00, 0xFF, 0x13], b ≠ 0xAA ∧ b ≠ 0x55) ∧
    ∃ r frame ctx1 data,
      data_comm_send (List.replicate 266 0) 0x10 (some [2, 3]) [2, 3].length = some r ∧
      r.transmitted = some frame ∧
      feed data_comm_init ([0x00, 0xFF, 0x13] ++ frame)
        = some (ctx1, List.replicate [0x00, 0xFF, 0x13].length none
            ++ (List.replicate (frame.length - 1) none
              ++ [some { cmd := 0x10, data := data, len := [2, 3].length }])) ∧
      data.take [2, 3].length = [2, 3] :=
  ⟨by simp [MAX_DATA_LENGTH], by simp [MAX_DATA_LENGTH], by decide,
    C7_resync_after_noise (List.replicate 266 0) [0x00, 0xFF, 0x13] 0x10 [2, 3]
      (by simp [MAX_DATA_LENGTH]) (by simp [MAX_DATA_LENGTH]) (by decide)⟩

/-- C8. Self-healing after a corrupted frame, evaluated on the code. The frames of
commands 0x01, 0x02 and 0x03 with empty payload are built by `data_comm_send`, and
bit 0 of the command byte of the first is flipped. Fed to a freshly initialised
decoder, the flipped first frame immediately followed by the second makes no handler
call on any of the 18 bytes and leaves the decoder in `STATE_WAIT_HEADER2`; with the
third frame appended there is no handler call on any of the 27 bytes and the decoder
is again left in `STATE_WAIT_HEADER2`. The claim asks for exactly one call, with
command 0x02 and the empty payload. -/
theorem C8_back_to_back_frames_lost :
    (data_comm_send (List.replicate 266 0) 0x01 (some []) 0).map (fun r => r.transmitted)
      = some (some [0xAA, 0x55, 0x00, 0x01, 0x01, 0xEF, 0x8C, 0x55, 0xAA]) ∧
    (data_comm_send (List.replicate 266 0) 0x02 (some []) 0).map (fun r => r.transmitted)
      = some (some [0xAA, 0x55, 0x00, 0x01, 0x02, 0xDF, 0xEF, 0x55, 0xAA]) ∧
    (data_comm_send (List.replicate 266 0) 0x03 (some []) 0).map (fun r => r.transmitted)
      = some (some [0xAA, 0x55, 0x00, 0x01, 0x03, 0xCF, 0xCE, 0x55, 0xAA]) ∧
    flip_bit [0xAA, 0x55, 0x00, 0x01, 0x01, 0xEF, 0x8C, 0x55, 0xAA] 4 0
      = [0xAA, 0x55, 0x00, 0x01, 0x00, 0xEF, 0x8C, 0x55, 0xAA] ∧
    (feed data_comm_init
        (flip_bit [0xAA, 0x55, 0x00, 0x01, 0x01, 0xEF, 0x8C, 0x55, 0xAA] 4 0
          ++ [0xAA, 0x55, 0x00, 0x01, 0x02, 0xDF, 0xEF, 0x55, 0xAA])).map
        (fun t => (t.1.state, t.2))
      = some (.STATE_WAIT_HEADER2, List.replicate 18 none) ∧
    (feed data_comm_init
        (flip_bit [0xAA, 0x55, 0x00, 0x01, 0x01, 0xEF, 0x8C, 0x55, 0xAA] 4 0
          ++ [0xAA, 0x55, 0x00, 0x01, 0x02, 0xDF, 0xEF, 0x55, 0xAA]
          ++ [0xAA, 0x55, 0x00, 0x01, 0x03, 0xCF, 0xCE, 0x55, 0xAA])).map
        (fun t => (t.1.state, t.2))
      = some (.STATE_WAIT_HEADER2, List.replicate 27 none) := by
  decide

/-- C9. End-to-end vector: with header 0xAA55, trailer 0x55AA, the checksum enabled and
`MAX_DATA_LENGTH` = 256, `data_comm_send(0x10, [0x02, 0x03])` emits exactly the 11 bytes
`AA 55 00 03 10 02 03 K_hi K_lo 55 AA` with `K` the checksum of `00 03 10 02 03`, and
feeding these 11 bytes one at a time to a freshly initialised decoder calls
`user_packet_handler` exactly once, on the last byte, with command 0x10 and payload
`[0x02, 0x03]`. -/
theorem C9_end_to_end_vector (buf : List Nat) (hbuf : buf.length = MAX_DATA_LENGTH + 10) :
    FRAME_HEADER = 0xAA55 ∧ FRAME_END = 0x55AA ∧ MAX_DATA_LENGTH = 256 ∧
    ∃ r ctx1 data,
      data_comm_send buf 0x10 (some [0x02, 0x03]) 2 = some r ∧
      r.transmitted = some
        [0xAA, 0x55, 0x00, 0x03, 0x10, 0x02, 0x03,
          crc16_ccitt [0x00, 0x03, 0x10, 0x02, 0x03] / 256,
          crc16_ccitt [0x00, 0x03, 0x10, 0x02, 0x03] % 256, 0x55, 0xAA] ∧
      r.ret = 11 ∧
      feed data_comm_init
          [0xAA, 0x55, 0x00, 0x03, 0x10, 0x02, 0x03,
            crc16_ccitt [0x00, 0x03, 0x10, 0x02, 0x03] / 256,
            crc16_ccitt [0x00, 0x03, 0x10, 0x02, 0x03] % 256, 0x55, 0xAA]
        = some (ctx1, List.replicate 10 none ++ [some { cmd := 0x10, data := data, len := 2 }]) ∧
      data.take 2 = [0x02, 0x03] := by
  have hp : [0x02, 0x03].length ≤ MAX_DATA_LENGTH := by simp [MAX_DATA_LENGTH]
  obtain ⟨rest, hs⟩ := send_ok buf 0x10 [0x02, 0x03] hbuf hp
  obtain ⟨ctx1, hf, _, hdat, _, _⟩ :=
    feed_frame data_comm_init 0x10 [0x02, 0x03] init_state init_data_length init_crc_length hp
  have hw := wire_frame_eq 0x10 [0x02, 0x03] hp
  refine ⟨rfl, rfl, rfl, _, ctx1, ctx1.data, hs, ?_, rfl, ?_, hdat⟩
  · rw [hw]; rfl
  · rw [hw] at hf
    exact hf

theorem C9_end_to_end_vector_witness :
    (List.replicate 266 0).length = MAX_DATA_LENGTH + 10 ∧
    (FRAME_HEADER = 0xAA55 ∧ FRAME_END = 0x55AA ∧ MAX_DATA_LENGTH = 256 ∧
    ∃ r ctx1 data,
      data_comm_send (List.replicate 266 0) 0x10 (some [0x02, 0x03]) 2 = some r ∧
      r.transmitted = some
        [0xAA, 0x55, 0x00, 0x03, 0x10, 0x02, 0x03,
          crc16_ccitt [0x00, 0x03, 0x10, 0x02, 0x03] / 256,
          crc16_ccitt [0x00, 0x03, 0x10, 0x02, 0x03] % 256, 0x55, 0xAA] ∧
      r.ret = 11 ∧
      feed data_comm_init
          [0xAA, 0x55, 0x00, 0x03, 0x10, 0x02, 0x03,
            crc16_ccitt [0x00, 0x03, 0x10, 0x02, 0x03] / 256,
            crc16_ccitt [0x00, 0x03, 0x10, 0x02, 0x03] % 256, 0x55, 0xAA]
        = some (ctx1, List.replicate 10 none ++ [some { cmd := 0x10, data := data, len := 2 }]) ∧
      data.take 2 = [0x02, 0x03]) :=
  ⟨by simp [MAX_DATA_LENGTH], C9_end_to_end_vector (List.replicate 266 0) (by simp [MAX_DATA_LENGTH])⟩

/-- C10 (amended). After any defined call of `data_comm_parse_byte` that aborts a frame
(length out of range, checksum mismatch, wrong trailer byte) and after any call that
hands a frame to `user_packet_handler`, the state is `STATE_WAIT_HEADER1`, the state
`data_comm_init` sets, and no field is cleared: `data_index`, `cmd` and the payload
buffer are what they were before the call; `pkg_length`, `crc_buffer` and `crc_index`
are what they were before the call, except that an abort on the low length byte has
first stored that byte (`pkg_length |= byte`, `crc_buffer[crc_index++] = byte`);
`recv_crc` is what it was before the call, except that an abort on the second
checksum byte has first stored that byte (`recv_crc |= byte`). -/
theorem C10_reset_of_state (ctx : ParseContext) (b : Nat) (r : ParseContext × Option Packet)
    (h : data_comm_parse_byte ctx b = some r)
    (hev : aborts ctx b = true ∨ r.2.isSome = true) :
    r.1.state = .STATE_WAIT_HEADER1 ∧ r.1.data_index = ctx.data_index ∧ r.1.cmd = ctx.cmd ∧
      r.1.data = ctx.data ∧
      r.1.pkg_length = (if ctx.state = .STATE_WAIT_LENGTH_LOW
        then (ctx.pkg_length ||| b) % 65536 else ctx.pkg_length) ∧
      r.1.crc_buffer = (if ctx.state = .STATE_WAIT_LENGTH_LOW
        then ctx.crc_buffer.set ctx.crc_index b else ctx.crc_buffer) ∧
      r.1.crc_index = (if ctx.state = .STATE_WAIT_LENGTH_LOW
        then (ctx.crc_index + 1) % 65536 else ctx.crc_index) ∧
      r.1.recv_crc = (if ctx.state = .STATE_WAIT_CRC2
        then (ctx.recv_crc ||| b) % 65536 else ctx.recv_crc) := by
  obtain ⟨st, di, pl, cmd, dat, rc, cb, ci⟩ := ctx
  obtain ⟨r1, r2⟩ := r
  cases st <;> simp only [data_comm_parse_byte, aborts, write, end_hi, end_lo] at h hev
  all_goals try split_ifs at h
  all_goals simp at h hev
  all_goals try (obtain ⟨rfl, rfl⟩ := h)
  all_goals try simp_all
  all_goals (simp only [MAX_DATA_LENGTH] at *; omega)

theorem C10_reset_of_state_witness :
    (feed data_comm_init [0xAA, 0x55, 0x00, 0x03, 0x10, 0x02, 0x03, 0x9F]).map Prod.fst
      = some crc2_example ∧
    data_comm_parse_byte crc2_example 0x01
      = some ({ crc2_example with state := .STATE_WAIT_HEADER1, recv_crc := 0x9F01 }, none) ∧
    (aborts crc2_example 0x01 = true ∨
      (({ crc2_example with state := .STATE_WAIT_HEADER1, recv_crc := 0x9F01 },
        none) : ParseContext × Option Packet).2.isSome = true) ∧
    ((({ crc2_example with state := .STATE_WAIT_HEADER1, recv_crc := 0x9F01 },
          none) : ParseContext × Option Packet).1.state = .STATE_WAIT_HEADER1 ∧
      (({ crc2_example with state := .STATE_WAIT_HEADER1, recv_crc := 0x9F01 },
          none) : ParseContext × Option Packet).1.data_index = crc2_example.data_index ∧
      (({ crc2_example with state := .STATE_WAIT_HEADER1, recv_crc := 0x9F01 },
          none) : ParseContext × Option Packet).1.cmd = crc2_example.cmd ∧
      (({ crc2_example with state := .STATE_WAIT_HEADER1, recv_crc := 0x9F01 },
          none) : ParseContext × Option Packet).1.data = crc2_example.data ∧
      (({ crc2_example with state := .STATE_WAIT_HEADER1, recv_crc := 0x9F01 },
          none) : ParseContext × Option Packet).1.pkg_length
        = (if crc2_example.state = .STATE_WAIT_LENGTH_LOW
          then (crc2_example.pkg_length ||| 0x01) % 65536 else crc2_example.pkg_length) ∧
      (({ crc2_example with state := .STATE_WAIT_HEADER1, recv_crc := 0x9F01 },
          none) : ParseContext × Option Packet).1.crc_buffer
        = (if crc2_example.state = .STATE_WAIT_LENGTH_LOW
          then crc2_example.crc_buffer.set crc2_example.crc_index 0x01
          else crc2_example.crc_buffer) ∧
      (({ crc2_example with state := .STATE_WAIT_HEADER1, recv_crc := 0x9F01 },
          none) : ParseContext × Option Packet).1.crc_index
        = (if crc2_example.state = .STATE_WAIT_LENGTH_LOW
          then (crc2_example.crc_index + 1) % 65536 else crc2_example.crc_index) ∧
      (({ crc2_example with state := .STATE_WAIT_HEADER1, recv_crc := 0x9F01 },
          none) : ParseContext × Option Packet).1.recv_crc
        = (if crc2_example.state = .STATE_WAIT_CRC2
          then (crc2_example.recv_crc ||| 0x01) % 65536 else crc2_example.recv_crc)) :=
  ⟨by decide, by decide, Or.inl (by decide),
    C10_reset_of_state crc2_example 0x01
      ({ crc2_example with state := .STATE_WAIT_HEADER1, recv_crc := 0x9F01 }, none)
      (by decide) (Or.inl (by decide))⟩

/-- C10, counterexample to the claim as stated: after `AA 55 01` the byte `02` completes
the length 258, which is out of range, so the call aborts the frame; and the last byte
of the frame `AA 55 00 03 10 02 03 9F B2 55 AA` hands the frame over; after either
call the state is `STATE_WAIT_HEADER1` but the context is not the one `data_comm_init`
produces (the checksum index is 2, respectively 5, not 0). -/
theorem C10_reset_of_state_counterexample :
    (feed data_comm_init [0xAA, 0x55, 0x01]).map (fun t => aborts t.1 0x02) = some true ∧
    (feed data_comm_init [0xAA, 0x55, 0x01, 0x02]).map
        (fun t => (t.1.state, t.1.crc_index, decide (t.1 = data_comm_init)))
      = some (.STATE_WAIT_HEADER1, 2, false) ∧
    (feed data_comm_init [0xAA, 0x55, 0x00, 0x03, 0x10, 0x02, 0x03, 0x9F, 0xB2, 0x55, 0xAA]).map
        (fun t => (t.2.map Option.isSome, t.1.state, t.1.crc_index, decide (t.1 = data_comm_init)))
      = some ([false, false, false, false, false, false, false, false, false, false, true],
          .STATE_WAIT_HEADER1, 5, false) := by
  decide

/-- C11. No event for a partial frame: for every command byte, payload of at most 256
bytes and strict prefix of the frame `data_comm_send` builds, feeding the prefix to a
freshly initialised decoder makes no handler call; the decoder keeps waiting: the
rest of the frame, fed afterwards, completes it and the frame is handed over on its
last byte. -/
theorem C11_no_event_for_partial_frame (buf : List Nat) (c : Nat) (p : List Nat) (k : Nat)
    (hbuf : buf.length = MAX_DATA_LENGTH + 10) (hp : p.length ≤ MAX_DATA_LENGTH)
    (hk : k < p.length + 9) :
    ∃ r frame ctx1,
      data_comm_send buf c (some p) p.length = some r ∧ r.transmitted = some frame ∧
      frame.length = p.length + 9 ∧
      feed data_comm_init (frame.take k) = some (ctx1, List.replicate k none) ∧
      ∃ ctx2 data,
        feed ctx1 (frame.drop k)
          = some (ctx2, List.replicate (p.length + 8 - k) none
              ++ [some { cmd := c, data := data, len := p.length }]) ∧
        data.take p.length = p := by
  obtain ⟨rest, hs⟩ := send_ok buf c p hbuf hp
  obtain ⟨ctx1, h1, ctx2, h2, hdat⟩ :=
    feed_frame_cut data_comm_init c p k init_state init_data_length init_crc_length hp hk
  exact ⟨_, wire_frame c p, ctx1, hs, rfl, wire_frame_length c p, h1, ctx2, ctx2.data, h2, hdat⟩

theorem C11_no_event_for_partial_frame_witness :
    (List.replicate 266 0).length = MAX_DATA_LENGTH + 10 ∧ [2, 3].length ≤ MAX_DATA_LENGTH ∧
    6 < [2, 3].length + 9 ∧
    ∃ r frame ctx1,
      data_comm_send (List.replicate 266 0) 0x10 (some [2, 3]) [2, 3].length = some r ∧
      r.transmitted = some frame ∧ frame.length = [2, 3].length + 9 ∧
      feed data_comm_init (frame.take 6) = some (ctx1, List.replicate 6 none) ∧
      ∃ ctx2 data,
        feed ctx1 (frame.drop 6)
          = some (ctx2, List.replicate ([2, 3].length + 8 - 6) none
              ++ [some { cmd := 0x10, data := data, len := [2, 3].length }]) ∧
        data.take [2, 3].length = [2, 3] :=
  ⟨by simp [MAX_DATA_LENGTH], by simp [MAX_DATA_LENGTH], by decide,
    C11_no_event_for_partial_frame (List.replicate 266 0) 0x10 [2, 3] 6
      (by simp [MAX_DATA_LENGTH]) (by simp [MAX_DATA_LENGTH]) (by decide)⟩

/-- C12. Buffer-bound invariant: on every byte stream fed to a freshly initialised
decoder every step is defined (no store leaves an array), the payload buffer keeps its
256 cells and the checksum buffer its 259; whenever the state reached is `READ_DATA`,
`2 ≤ pkg_length ≤ 257`, `data_index < pkg_length - 1 ≤ 256` and
`crc_index = data_index + 3 ≤ 258`, so the next stores `data[data_index]` and
`crc_buffer[crc_index]` are inside the arrays; and whenever it is `WAIT_CRC2`, where
the checksum is computed, `crc_index = pkg_length + 2`. -/
theorem C12_buffer_bounds (s : List Nat) (hs : ∀ b ∈ s, b < 256) :
    ∃ ctx tr, feed data_comm_init s = some (ctx, tr) ∧
      ctx.data.length = 256 ∧ ctx.crc_buffer.length = 259 ∧
      (ctx.state = .STATE_READ_DATA →
        2 ≤ ctx.pkg_length ∧ ctx.pkg_length ≤ 257 ∧
        ctx.data_index < ctx.pkg_length - 1 ∧ ctx.pkg_length - 1 ≤ 256 ∧
        ctx.crc_index = ctx.data_index + 3 ∧ ctx.crc_index ≤ 258 ∧
        ctx.data_index < ctx.data.length ∧ ctx.crc_index < ctx.crc_buffer.length) ∧
      (ctx.state = .STATE_WAIT_CRC2 → ctx.crc_index = ctx.pkg_length + 2) := by
  obtain ⟨ctx, tr, hf, hinv, _, _⟩ := inv_feed s [] data_comm_init inv_init hs
  obtain ⟨hd, hc, hm⟩ := hinv
  have hd2 : ctx.data.length = 256 := hd
  have hc2 : ctx.crc_buffer.length = 259 := hc
  refine ⟨ctx, tr, hf, hd2, hc2, ?_, ?_⟩
  · intro hst
    rw [hst] at hm
    obtain ⟨hi, lo, d, ⟨_, _, _, hci, _, hdi, _, _, hp2⟩, hlt⟩ := hm
    have hp3 : ctx.pkg_length ≤ 257 := hp2
    omega
  · intro hst
    rw [hst] at hm
    obtain ⟨hi, lo, d, k1, ⟨_, _, _, hci, _, hdi, _, _, _⟩, hlt, _, _⟩ := hm
    omega

theorem C12_buffer_bounds_witness :
    (∀ b ∈ [0xAA, 0x55, 0x01, 0x01, 0x07, 0x08], b < 256) ∧
    ∃ ctx tr, feed data_comm_init [0xAA, 0x55, 0x01, 0x01, 0x07, 0x08] = some (ctx, tr) ∧
      ctx.data.length = 256 ∧ ctx.crc_buffer.length = 259 ∧
      (ctx.state = .STATE_READ_DATA →
        2 ≤ ctx.pkg_length ∧ ctx.pkg_length ≤ 257 ∧
        ctx.data_index < ctx.pkg_length - 1 ∧ ctx.pkg_length - 1 ≤ 256 ∧
        ctx.crc_index = ctx.data_index + 3 ∧ ctx.crc_index ≤ 258 ∧
        ctx.data_index < ctx.data.length ∧ ctx.crc_index < ctx.crc_buffer.length) ∧
      (ctx.state = .STATE_WAIT_CRC2 → ctx.crc_index = ctx.pkg_length + 2) :=
  ⟨by decide, C12_buffer_bounds [0xAA, 0x55, 0x01, 0x01, 0x07, 0x08] (by decide)⟩

/-- C13. Length validation: for every pair of bytes `hi`, `lo` fed right after the
header `AA 55` to a decoder in header search, with `length = 256 * hi + lo`, the
decoder is in `WAIT_CMD` after the low byte if and only if `1 ≤ length ≤ 257`;
otherwise (`length = 0` or `length > 257`) it is in `WAIT_HEADER1` right after the low
byte; none of the four bytes causes a handler call and the payload buffer and payload
index are untouched. -/
theorem C13_length_validation (ctx : ParseContext) (hi lo : Nat)
    (hst : ctx.state = .STATE_WAIT_HEADER1) (hc : ctx.crc_buffer.length = MAX_DATA_LENGTH + 3)
    (hhi : hi < 256) (hlo : lo < 256) :
    ∃ ctx1, feed ctx [0xAA, 0x55, hi, lo] = some (ctx1, [none, none, none, none]) ∧
      (ctx1.state = .STATE_WAIT_CMD ↔ (1 ≤ 256 * hi + lo ∧ 256 * hi + lo ≤ 257)) ∧
      (¬ (1 ≤ 256 * hi + lo ∧ 256 * hi + lo ≤ 257) → ctx1.state = .STATE_WAIT_HEADER1) ∧
      ctx1.pkg_length = 256 * hi + lo ∧
      ctx1.data = ctx.data ∧ ctx1.data_index = ctx.data_index := by
  refine ⟨_, feed_length_check ctx hi lo hst hc hhi hlo, ?_, ?_, ?_, rfl, rfl⟩
  · simp only [MAX_DATA_LENGTH]
    by_cases h : hi * 256 + lo = 0 ∨ hi * 256 + lo > 256 + 1
    · rw [if_pos h]
      constructor
      · intro hc; exact absurd hc (by decide)
      · intro h2; omega
    · rw [if_neg h]
      constructor
      · intro _; omega
      · intro _; rfl
  · intro hn
    simp only [MAX_DATA_LENGTH]
    rw [if_pos (by omega)]
  · show hi * 256 + lo = 256 * hi + lo
    omega

theorem C13_length_validation_witness :
    data_comm_init.state = .STATE_WAIT_HEADER1 ∧
    data_comm_init.crc_buffer.length = MAX_DATA_LENGTH + 3 ∧ 0x01 < 256 ∧ 0x02 < 256 ∧
    ∃ ctx1, feed data_comm_init [0xAA, 0x55, 0x01, 0x02] = some (ctx1, [none, none, none, none]) ∧
      (ctx1.state = .STATE_WAIT_CMD ↔ (1 ≤ 256 * 0x01 + 0x02 ∧ 256 * 0x01 + 0x02 ≤ 257)) ∧
      (¬ (1 ≤ 256 * 0x01 + 0x02 ∧ 256 * 0x01 + 0x02 ≤ 257) →
        ctx1.state = .STATE_WAIT_HEADER1) ∧
      ctx1.pkg_length = 256 * 0x01 + 0x02 ∧
      ctx1.data = data_comm_init.data ∧ ctx1.data_index = data_comm_init.data_index :=
  ⟨rfl, by simp [data_comm_init], by decide, by decide,
    C13_length_validation data_comm_init 0x01 0x02 rfl (by simp [data_comm_init]) (by decide)
      (by decide)⟩

/-- C14. Stale context does not leak: for any two decoder contexts in state
`WAIT_HEADER1`, whatever `data_index`, `pkg_length`, `cmd`, `recv_crc`, `crc_index` and
the two buffers hold, and every byte stream, feeding the stream to both is defined and
yields the same handler calls at the same positions (same command, payload and
length); and a decoder in such a context, the freshly initialised one or the one a
delivery or an abort leaves, fed the frames successive calls of `data_comm_send`
emit one after the other, hands every frame over exactly once, on its last byte, in
order. -/
theorem C14_stale_context (ctxA ctxB : ParseContext) (s buf : List Nat)
    (fs : List (Nat × List Nat))
    (hA : ctxA.state = .STATE_WAIT_HEADER1) (hB : ctxB.state = .STATE_WAIT_HEADER1)
    (hAd : ctxA.data.length = MAX_DATA_LENGTH) (hBd : ctxB.data.length = MAX_DATA_LENGTH)
    (hAc : ctxA.crc_buffer.length = MAX_DATA_LENGTH + 3)
    (hBc : ctxB.crc_buffer.length = MAX_DATA_LENGTH + 3)
    (hs : ∀ b ∈ s, b < 256) (hbuf : buf.length = MAX_DATA_LENGTH + 10)
    (hfs : ∀ f ∈ fs, f.2.length ≤ MAX_DATA_LENGTH) :
    (∃ a1 t1 b1 t2, feed ctxA s = some (a1, t1) ∧ feed ctxB s = some (b1, t2) ∧
      t1.map (Option.map Packet.view) = t2.map (Option.map Packet.view)) ∧
    (∃ stream ctx1 tr, send_all buf fs = some stream ∧ feed ctxA stream = some (ctx1, tr) ∧
      tr.map (Option.map Packet.view) = frames_calls fs) := by
  constructor
  · obtain ⟨a1, t1, h1, _, _, _⟩ := inv_feed s [] ctxA (inv_of_header1 ctxA hA hAd hAc) hs
    obtain ⟨b1, t2, h2, _, _, _⟩ := inv_feed s [] ctxB (inv_of_header1 ctxB hB hBd hBc) hs
    exact ⟨a1, t1, b1, t2, h1, h2,
      (sim_feed s ctxA ctxB a1 b1 t1 t2 (sim_of_header1 ctxA ctxB hA hB hAd hBd hAc hBc) h1 h2).2⟩
  · exact feed_frames fs buf ctxA hbuf hA hAd hAc hfs

theorem C14_stale_context_witness :
    data_comm_init.state = .STATE_WAIT_HEADER1 ∧
    ({ data_comm_init with cmd := 9, crc_index := 40,
                           data := List.replicate 256 9 } : ParseContext).state
      = .STATE_WAIT_HEADER1 ∧
    data_comm_init.data.length = MAX_DATA_LENGTH ∧
    ({ data_comm_init with cmd := 9, crc_index := 40,
                           data := List.replicate 256 9 } : ParseContext).data.length
      = MAX_DATA_LENGTH ∧
    data_comm_init.crc_buffer.length = MAX_DATA_LENGTH + 3 ∧
    ({ data_comm_init with cmd := 9, crc_index := 40,
                           data := List.replicate 256 9 } : ParseContext).crc_buffer.length
      = MAX_DATA_LENGTH + 3 ∧
    (∀ b ∈ [0x13, 0xAA, 0x55, 0x00, 0x03, 0x10, 0x02, 0x03, 0x9F, 0xB2, 0x55, 0xAA], b < 256) ∧
    (List.replicate 266 0).length = MAX_DATA_LENGTH + 10 ∧
    (∀ f ∈ [(0x01, ([] : List Nat)), (0x10, [0x02, 0x03])], f.2.length ≤ MAX_DATA_LENGTH) ∧
    ((∃ a1 t1 b1 t2,
      feed data_comm_init [0x13, 0xAA, 0x55, 0x00, 0x03, 0x10, 0x02, 0x03, 0x9F, 0xB2, 0x55, 0xAA]
        = some (a1, t1) ∧
      feed { data_comm_init with cmd := 9, crc_index := 40, data := List.replicate 256 9 }
          [0x13, 0xAA, 0x55, 0x00, 0x03, 0x10, 0x02, 0x03, 0x9F, 0xB2, 0x55, 0xAA]
        = some (b1, t2) ∧
      t1.map (Option.map Packet.view) = t2.map (Option.map Packet.view)) ∧
    (∃ stream ctx1 tr,
      send_all (List.replicate 266 0) [(0x01, ([] : List Nat)), (0x10, [0x02, 0x03])]
        = some stream ∧
      feed data_comm_init stream = some (ctx1, tr) ∧
      tr.map (Option.map Packet.view)
        = frames_calls [(0x01, ([] : List Nat)), (0x10, [0x02, 0x03])])) :=
  ⟨rfl, rfl, init_data_length, by simp [MAX_DATA_LENGTH], init_crc_length, init_crc_length,
    by decide, by simp [MAX_DATA_LENGTH], by simp [MAX_DATA_LENGTH],
    C14_stale_context data_comm_init
      { data_comm_init with cmd := 9, crc_index := 40, data := List.replicate 256 9 }
      [0x13, 0xAA, 0x55, 0x00, 0x03, 0x10, 0x02, 0x03, 0x9F, 0xB2, 0x55, 0xAA]
      (List.replicate 266 0) [(0x01, ([] : List Nat)), (0x10, [0x02, 0x03])]
      rfl rfl init_data_length (by simp [MAX_DATA_LENGTH]) init_crc_length init_crc_length
      (by decide) (by simp [MAX_DATA_LENGTH]) (by simp [MAX_DATA_LENGTH])⟩

/-- C15. Header search does not re-examine a failed second header byte: in state
`WAIT_HEADER2` the byte 0xAA, the first header byte, sends the decoder to
`WAIT_HEADER1` and is not kept as the start of a frame; hence for every command byte,
feeding the single byte 0xAA and then the frame `data_comm_send` builds for the empty
payload to a freshly initialised decoder makes no handler call on any of the ten
bytes. -/
theorem C15_header_not_reexamined (buf : List Nat) (ctx : ParseContext) (c : Nat)
    (hbuf : buf.length = MAX_DATA_LENGTH + 10) (hst : ctx.state = .STATE_WAIT_HEADER2)
    (hc : c < 256) :
    data_comm_parse_byte ctx 0xAA = some ({ ctx with state := .STATE_WAIT_HEADER1 }, none) ∧
    ∃ r frame ctx1,
      data_comm_send buf c (some []) 0 = some r ∧ r.transmitted = some frame ∧
      feed data_comm_init (0xAA :: frame) = some (ctx1, List.replicate 10 none) := by
  constructor
  · simp [data_comm_parse_byte, hst, hdr_lo]
  · obtain ⟨rest, hs⟩ := send_ok buf c [] hbuf (by simp)
    have hbytes : ∀ b ∈ 0xAA :: wire_frame c [], b < 256 := by
      intro b hb
      rcases List.mem_cons.mp hb with rfl | hb
      · norm_num
      · exact wire_frame_lt c [] hc (by simp) b hb
    obtain ⟨ctx1, tr, hf, _, _, _⟩ :=
      inv_feed (0xAA :: wire_frame c []) [] data_comm_init inv_init hbytes
    refine ⟨_, wire_frame c [], ctx1, hs, rfl, ?_⟩
    obtain ⟨tl, htl, hlen⟩ : ∃ tl, wire_frame c [] = 0xAA :: tl ∧ tl.length = 8 :=
      ⟨_, rfl, rfl⟩
    rw [htl] at hf ⊢
    have h2 : feed data_comm_init [0xAA, 0xAA] = some (data_comm_init, [none, none]) := by
      decide
    obtain ⟨ctx0, t1, t2, g1, g2, g3, _⟩ :=
      feed_split data_comm_init ctx1 [0xAA, 0xAA] tl tr hf
    rw [h2] at g1
    simp only [Option.some.injEq, Prod.mk.injEq] at g1
    obtain ⟨rfl, rfl⟩ := g1
    have hq := feed_quiet tl data_comm_init ctx1 t2 g2 (by rw [hlen]; decide)
    rw [hf, g3, hq, hlen]
    rfl

theorem C15_header_not_reexamined_witness :
    (List.replicate 266 0).length = MAX_DATA_LENGTH + 10 ∧
    ({ data_comm_init with state := .STATE_WAIT_HEADER2 } : ParseContext).state
      = .STATE_WAIT_HEADER2 ∧ 0xAA < 256 ∧
    (data_comm_parse_byte { data_comm_init with state := .STATE_WAIT_HEADER2 } 0xAA
      = some ({ ({ data_comm_init with state := .STATE_WAIT_HEADER2 } : ParseContext) with
                state := .STATE_WAIT_HEADER1 }, none) ∧
    ∃ r frame ctx1,
      data_comm_send (List.replicate 266 0) 0xAA (some []) 0 = some r ∧
      r.transmitted = some frame ∧
      feed data_comm_init (0xAA :: frame) = some (ctx1, List.replicate 10 none)) :=
  ⟨by simp [MAX_DATA_LENGTH], rfl, by decide,
    C15_header_not_reexamined (List.replicate 266 0)
      { data_comm_init with state := .STATE_WAIT_HEADER2 } 0xAA (by simp [MAX_DATA_LENGTH]) rfl
      (by decide)⟩

/-- C16. The checksum detects every single-bit error: two byte sequences of the same
length (of any length, so up to 65535 bytes) that differ in exactly one bit, one being
the other with bit `k` of its byte `j` flipped, have different `crc16_ccitt`. -/
theorem C16_single_bit_error (l : List Nat) (j k : Nat) (hl : ∀ b ∈ l, b < 256)
    (hj : j < l.length) (hk : k < 8) :
    (flip_bit l j k).length = l.length ∧ crc16_ccitt (flip_bit l j k) ≠ crc16_ccitt l := by
  refine ⟨flip_bit_length l j k, ?_⟩
  obtain ⟨xs, b, ys, h1, _, h3⟩ := flip_bit_split l j k hj
  have hb : b < 256 := hl b (by rw [h1]; simp)
  rw [h3]
  intro h
  rw [h1] at h
  exact flip_ne b k (crc16_ccitt_one_byte xs ys _ _ (flip_lt b k hb hk) hb h)

theorem C16_single_bit_error_witness :
    (∀ b ∈ [0x31, 0x32, 0x33], b < 256) ∧ 1 < [0x31, 0x32, 0x33].length ∧ 7 < 8 ∧
    ((flip_bit [0x31, 0x32, 0x33] 1 7).length = [0x31, 0x32, 0x33].length ∧
      crc16_ccitt (flip_bit [0x31, 0x32, 0x33] 1 7) ≠ crc16_ccitt [0x31, 0x32, 0x33]) :=
  ⟨by decide, by decide, by decide,
    C16_single_bit_error [0x31, 0x32, 0x33] 1 7 (by decide) (by decide) (by decide)⟩

/-- C17. Residue of the checksum: for every byte sequence `m`, appending its checksum
big-endian gives a sequence whose checksum is zero; so the part of every frame built by
`data_comm_send` that runs from the length field through the checksum (the `len + 5`
bytes after the header) has checksum 0. -/
theorem C17_crc_residue (m buf : List Nat) (c : Nat) (p : List Nat)
    (hbuf : buf.length = MAX_DATA_LENGTH + 10) (hp : p.length ≤ MAX_DATA_LENGTH) :
    crc16_ccitt (m ++ [(crc16_ccitt m >>> 8) &&& 0xFF, crc16_ccitt m &&& 0xFF]) = 0x0000 ∧
    ∃ r frame, data_comm_send buf c (some p) p.length = some r ∧ r.transmitted = some frame ∧
      crc16_ccitt ((frame.drop 2).take (p.length + 5)) = 0x0000 := by
  have hres : ∀ m : List Nat,
      crc16_ccitt (m ++ [(crc16_ccitt m >>> 8) &&& 0xFF, crc16_ccitt m &&& 0xFF]) = 0 := by
    intro m
    unfold crc16_ccitt
    rw [crc16_while_append]
    exact crc16_while_residue _ (crc16_while_lt _ _ (by norm_num))
  refine ⟨hres m, ?_⟩
  obtain ⟨rest, hs⟩ := send_ok buf c p hbuf hp
  refine ⟨_, wire_frame c p, hs, rfl, ?_⟩
  have hspan : ((wire_frame c p).drop 2).take (p.length + 5)
      = ([((p.length + 1) >>> 8) &&& 0xFF, (p.length + 1) &&& 0xFF, c] ++ p) ++
        [(crc16_ccitt ([((p.length + 1) >>> 8) &&& 0xFF, (p.length + 1) &&& 0xFF, c] ++ p)
            >>> 8) &&& 0xFF,
          crc16_ccitt ([((p.length + 1) >>> 8) &&& 0xFF, (p.length + 1) &&& 0xFF, c] ++ p)
            &&& 0xFF] := by
    have e : (wire_frame c p).drop 2
        = (([((p.length + 1) >>> 8) &&& 0xFF, (p.length + 1) &&& 0xFF, c] ++ p) ++
          [(crc16_ccitt ([((p.length + 1) >>> 8) &&& 0xFF, (p.length + 1) &&& 0xFF, c] ++ p)
              >>> 8) &&& 0xFF,
            crc16_ccitt ([((p.length + 1) >>> 8) &&& 0xFF, (p.length + 1) &&& 0xFF, c] ++ p)
              &&& 0xFF]) ++ [0x55, 0xAA] := by
      simp [wire_frame]
    rw [e]
    exact List.take_left' (by simp)
  rw [hspan]
  exact hres _

theorem C17_crc_residue_witness :
    (List.replicate 266 0).length = MAX_DATA_LENGTH + 10 ∧ [2, 3].length ≤ MAX_DATA_LENGTH ∧
    (crc16_ccitt ([0x31, 0x32, 0x33] ++ [(crc16_ccitt [0x31, 0x32, 0x33] >>> 8) &&& 0xFF,
        crc16_ccitt [0x31, 0x32, 0x33] &&& 0xFF]) = 0x0000 ∧
    ∃ r frame,
      data_comm_send (List.replicate 266 0) 0x10 (some [2, 3]) [2, 3].length = some r ∧
      r.transmitted = some frame ∧
      crc16_ccitt ((frame.drop 2).take ([2, 3].length + 5)) = 0x0000) :=
  ⟨by simp [MAX_DATA_LENGTH], by simp [MAX_DATA_LENGTH],
    C17_crc_residue [0x31, 0x32, 0x33] (List.replicate 266 0) 0x10 [2, 3]
      (by simp [MAX_DATA_LENGTH]) (by simp [MAX_DATA_LENGTH])⟩

end DataComm
